import Mathlib

/-!
# mchck USB bootloader driver (bootloader/usb-dfu/usb.c): endpoint-0 transfer engines

A shallow embedding of the endpoint-0 part of the driver.

* The global `usb`, the memory-mapped registers `USB0_ENDPT`, `USB0_ADDR`, `USB0_CTL`, the
  descriptor table `usb.bdt` points to and byte-addressed data memory are the fields of one
  explicit `Machine` value that every function takes and returns.
* `size_t` is 32 bits wide (the source asserts `sizeof(struct USB_BD_t) == 8`, a `uint32_t`
  plus a pointer), so `size_t` arithmetic is taken modulo `2^32`.
* Pointers are natural-number addresses; `NULL` is `0`; the sum of a pointer and an offset
  wraps at `2^32` like every other 32-bit sum.
* A descriptor is its 32-bit word `bd` plus `addr`; the bit-fields are read out of the word
  with the layout the source documents (fields filled from the least significant bit).
  The word the driver writes when it arms a descriptor is the value of a compound literal
  whose designators name bit-fields of two different members of the descriptor's union; it
  holds `own` and `data01` only (see `bd_word`).
* Two observation traces are carried along: `armed` records every descriptor the driver hands
  to the controller (a write of the descriptor word with `own = 1`), `calls` records every
  completion-callback invocation.  The driver never reads them.
-/

namespace Mchck

/-! ## Machine integers -/

/-- Number of values of a `size_t`. -/
def SIZE_MOD : Nat := 4294967296

/-- The `size_t` sum `a + b`. -/
def size_add (a b : Nat) : Nat := (a + b) % SIZE_MOD

/-- The `size_t` difference `a - b` (wraps around below zero). -/
def size_sub (a b : Nat) : Nat := (a + (SIZE_MOD - b % SIZE_MOD)) % SIZE_MOD

/-- Conversion of a `size_t` to `int` (two's complement, as GCC does). -/
def int_of_size (a : Nat) : Int :=
  if a % SIZE_MOD < 2147483648 then ((a % SIZE_MOD : Nat) : Int)
  else ((a % SIZE_MOD : Nat) : Int) - 4294967296

/-! ## Hardware structures -/

/-- Values of `enum usb_tok_pid` that the control endpoint handler dispatches on. -/
def USB_PID_OUT : Nat := 1
def USB_PID_IN : Nat := 9
def USB_PID_SETUP : Nat := 13

def USB_DATA01_DATA0 : Nat := 0
def USB_DATA01_DATA1 : Nat := 1

def USB_EP_RX : Nat := 0
def USB_EP_TX : Nat := 1

/-- The `struct USB_BD_t`: the 32-bit descriptor word and the buffer address. -/
structure USB_BD_t where
  bd : Nat
  addr : Nat
deriving DecidableEq, Repr

/-- Bit 6 of the descriptor word. -/
def USB_BD_t.data01 (b : USB_BD_t) : Nat := (b.bd / 64) % 2

/-- Bit 7 of the descriptor word. -/
def USB_BD_t.own (b : USB_BD_t) : Nat := (b.bd / 128) % 2

/-- Bits 16..25 of the descriptor word. -/
def USB_BD_t.bc (b : USB_BD_t) : Nat := (b.bd / 65536) % 1024

/-- Bit 3 of the descriptor word. -/
def USB_BD_t.dts (b : USB_BD_t) : Nat := (b.bd / 8) % 2

/-- Bits 2..5 of the descriptor word (the view the controller writes on completion). -/
def USB_BD_t.tok_pid (b : USB_BD_t) : Nat := (b.bd / 4) % 16

/-- The descriptor word of the compound literal
`{ .bc = thislen, .dts = 1, .data01 = data01, .own = 1 }`.  The four designators name
bit-fields of two different members of the anonymous union: `bc`, `data01` and `own` belong to
the first struct, `dts` to the second.  A union object holds one member, so an initialiser
naming another member than the one being initialised starts that member afresh and drops what
was initialised before: `.dts` drops `.bc`, and `.data01` drops `.dts` and starts the first
struct again from zero.  The word therefore holds `data01` (bit 6) and `own` (bit 7) only;
the byte count `bc` and `dts` are zero whatever `thislen` is. -/
def bd_word (_thislen data01 : Nat) : Nat :=
  (data01 % 2) * 64 + 1 * 128

/-- The pointer sum `p + off` of a `void *` and a `size_t` on the 32-bit address space. -/
def ptr_add (p off : Nat) : Nat := (p + off) % SIZE_MOD

/-- The `struct USB_ENDPT_t` (one endpoint control register). -/
structure USB_ENDPT_t where
  ephshk : Nat
  epstall : Nat
  eptxen : Nat
  eprxen : Nat
  epctldis : Nat
  retrydis : Nat
  hostwohub : Nat
deriving DecidableEq, Repr

/-- The `struct USB_ADDR_t`. -/
structure USB_ADDR_t where
  addr : Nat
  lsen : Nat
deriving DecidableEq, Repr

/-! ## Control requests -/

def USB_CTRL_REQ_STD : Nat := 0
def USB_CTRL_REQ_CLASS : Nat := 1
def USB_CTRL_REQ_VENDOR : Nat := 2

def USB_CTRL_REQ_GET_STATUS : Nat := 0
def USB_CTRL_REQ_CLEAR_FEATURE : Nat := 1
def USB_CTRL_REQ_SET_FEATURE : Nat := 3
def USB_CTRL_REQ_SET_ADDRESS : Nat := 5
def USB_CTRL_REQ_GET_DESCRIPTOR : Nat := 6
def USB_CTRL_REQ_SET_DESCRIPTOR : Nat := 7
def USB_CTRL_REQ_GET_CONFIGURATION : Nat := 8
def USB_CTRL_REQ_SET_CONFIGURATION : Nat := 9
def USB_CTRL_REQ_GET_INTERFACE : Nat := 10
def USB_CTRL_REQ_SET_INTERFACE : Nat := 11
def USB_CTRL_REQ_SYNC_FRAME : Nat := 12

/-- The fields of a `struct usb_ctrl_req_t` (the direction bit `in` is named `in_`). -/
structure usb_ctrl_req_t where
  recp : Nat
  type : Nat
  in_ : Nat
  request : Nat
  value : Nat
  index : Nat
  length : Nat
deriving DecidableEq, Repr

/-- The byte at address `a`. -/
def read8 (mem : Nat → Nat) (a : Nat) : Nat := mem a % 256

/-- The little-endian 16-bit value at address `a`. -/
def read16 (mem : Nat → Nat) (a : Nat) : Nat := read8 mem a + 256 * read8 mem (a + 1)

/-- The `struct usb_ctrl_req_t` a pointer `a` is read as: byte 0 holds `recp` (5 bits),
`type` (2 bits) and `in` (1 bit) from the least significant bit up, byte 1 the request
code, then `value`, `index` and `length`. -/
def usb_ctrl_req_at (mem : Nat → Nat) (a : Nat) : usb_ctrl_req_t :=
  { recp := read8 mem a % 32,
    type := (read8 mem a / 32) % 4,
    in_ := (read8 mem a / 128) % 2,
    request := read8 mem (a + 1),
    value := read16 mem (a + 2),
    index := read16 mem (a + 4),
    length := read16 mem (a + 6) }

/-! ## Internal driver structures -/

def EP0_BUFSIZE : Nat := 64

inductive usbd_dev_state where
  | USBD_STATE_DISABLED
  | USBD_STATE_DEFAULT
  | USBD_STATE_SETTING_ADDRESS
  | USBD_STATE_ADDRESS
  | USBD_STATE_CONFIGURED
deriving DecidableEq, Repr

inductive usbd_ctrl_state where
  | USBD_CTRL_STATE_IDLE
  | USBD_CTRL_STATE_DATA
  | USBD_CTRL_STATE_STATUS
deriving DecidableEq, Repr

open usbd_dev_state usbd_ctrl_state

/-- The `struct usbd_ep_pipe_state_t`.  `callback` is the function pointer (`0` is `NULL`). -/
structure usbd_ep_pipe_state_t where
  pingpong : Nat
  data01 : Nat
  transfer_size : Nat
  pos : Nat
  data_buf : Nat
  short_transfer : Nat
  callback : Nat
  callback_data : Nat
  ep_maxsize : Nat
deriving DecidableEq, Repr

/-- The `struct usbd_ep_state_t`: `pipe[0]` is `rx`, `pipe[1]` is `tx`. -/
structure usbd_ep_state_t where
  rx : usbd_ep_pipe_state_t
  tx : usbd_ep_pipe_state_t
deriving DecidableEq, Repr

/-- The `struct usbd_t`.  `bdt` is the table `usb.bdt` points to, by descriptor index;
`ep0_buf` is the address of the array `usb.ep0_buf`, whose bytes live in data memory. -/
structure usbd_t where
  bdt : Nat → USB_BD_t
  state : usbd_dev_state
  ctrl_state : usbd_ctrl_state
  ctrl_dir : Nat
  address : Nat
  config : Nat
  ep0_state : usbd_ep_state_t
  ep0_buf : Nat

/-- One descriptor hand-off: the table index written and the descriptor written there. -/
structure bd_handoff where
  idx : Nat
  desc : USB_BD_t
deriving DecidableEq, Repr

/-- One invocation `fn(buf, len, data)` of an `ep_callback_t`; `len` is the `size_t` value
passed for the `ssize_t` parameter. -/
structure callback_call where
  fn : Nat
  buf : Nat
  len : Nat
  data : Nat
deriving DecidableEq, Repr

/-- The driver state together with the registers and memory it works on. -/
structure Machine where
  usb : usbd_t
  USB0_ENDPT : Nat → USB_ENDPT_t
  USB0_ADDR : USB_ADDR_t
  USB0_CTL : Nat
  mem : Nat → Nat
  armed : List bd_handoff
  calls : List callback_call

/-! ## Descriptor directory -/

/-- Index into `usb.bdt` selected by `usb_get_bd`. -/
def usb_get_bd (ep dir pingpong : Nat) : Nat := (ep <<< 2) ||| (dir <<< 1) ||| pingpong

/-- Byte offset from `usb.bdt` selected by `usb_get_bd_stat`: the `uint32_t` value
`stat.stat << 1`. -/
def usb_get_bd_stat (stat : Nat) : Nat := (stat <<< 1) % 4294967296

/-- The `usb_ep_stall` function. -/
def usb_ep_stall (m : Machine) (ep : Nat) : Machine :=
  { m with USB0_ENDPT := Function.update m.USB0_ENDPT ep { m.USB0_ENDPT ep with epstall := 1 } }

/-! ## TX engine -/

/-- The `usb_tx_queue_next` function, on `usb.ep0_state.tx`. -/
def usb_tx_queue_next (m : Machine) : Machine :=
  let s := m.usb.ep0_state.tx
  let bd := usb_get_bd 0 USB_EP_TX s.pingpong
  let thislen := if s.transfer_size > s.ep_maxsize then s.ep_maxsize else s.transfer_size
  let desc : USB_BD_t := { bd := bd_word thislen s.data01, addr := ptr_add s.data_buf s.pos }
  { m with
    usb := { m.usb with
      bdt := Function.update m.usb.bdt bd desc,
      ep0_state := { m.usb.ep0_state with
        tx := { s with
          pos := size_add s.pos thislen,
          transfer_size := size_sub s.transfer_size thislen,
          pingpong := s.pingpong ^^^ 1 } } },
    armed := m.armed ++ [{ idx := bd, desc := desc }] }

/-- The toggle flip `s->data01 ^= 1` on the TX pipe. -/
def tx_toggle (m : Machine) : Machine :=
  { m with usb := { m.usb with ep0_state := { m.usb.ep0_state with
      tx := { m.usb.ep0_state.tx with data01 := m.usb.ep0_state.tx.data01 ^^^ 1 } } } }

/-- The `usb_tx_next` function: the new machine and the returned `int`. -/
def usb_tx_next (m : Machine) : Machine × Int :=
  let m1 := tx_toggle m
  let s := m1.usb.ep0_state.tx
  if s.transfer_size > 0 then
    (usb_tx_queue_next m1, 1)
  else if s.short_transfer ≠ 0 then
    let m2 : Machine := { m1 with usb := { m1.usb with ep0_state := { m1.usb.ep0_state with
      tx := { s with short_transfer := 0 } } } }
    (usb_tx_queue_next m2, 1)
  else if s.callback ≠ 0 then
    ({ m1 with calls := m1.calls ++
        [{ fn := s.callback, buf := s.data_buf, len := 0, data := s.callback_data }] }, 0)
  else
    (m1, 0)

/-- The `usb_tx` function: the new machine and the returned `int`. -/
def usb_tx (m : Machine) (buf len reqlen cb cb_data : Nat) : Machine × Int :=
  let s := m.usb.ep0_state.tx
  let ts := if len > reqlen then reqlen else len
  let s1 : usbd_ep_pipe_state_t :=
    { s with
      data_buf := buf,
      transfer_size := ts,
      pos := 0,
      callback := cb,
      callback_data := cb_data,
      short_transfer := if ts = reqlen then 0 else 1 }
  let m1 : Machine := { m with usb := { m.usb with ep0_state := { m.usb.ep0_state with tx := s1 } } }
  let m2 := usb_tx_queue_next m1
  (m2, int_of_size m2.usb.ep0_state.tx.transfer_size)

/-- The effect of `memcpy(dest, src, len)` on data memory, `src` given by its bytes. -/
def memcpy (mem : Nat → Nat) (dest : Nat) (src : List Nat) (len : Nat) : Nat → Nat :=
  fun a => if dest ≤ a ∧ a < dest + len then src.getD (a - dest) 0 % 256 else mem a

/-- Address of `usb.ep0_buf[pp]` for the declaration `uint8_t ep0_buf[EP0_BUFSIZE][2]`:
row `pp` of an array whose rows are two bytes long. -/
def ep0_buf_row (u : usbd_t) (pp : Nat) : Nat := u.ep0_buf + pp * 2

/-- The `usb_tx_cp` function; `buf` is given by the bytes of the object it points to. -/
def usb_tx_cp (m : Machine) (buf : List Nat) (len : Nat) : Machine × Int :=
  let pp := m.usb.ep0_state.tx.pingpong
  let destbuf := ep0_buf_row m.usb pp
  if len > EP0_BUFSIZE then
    (m, -1)
  else
    usb_tx { m with mem := memcpy m.mem destbuf buf len } destbuf len len 0 0

/-! ## RX engine -/

/-- The `usb_rx_queue_next` function, on `usb.ep0_state.rx`. -/
def usb_rx_queue_next (m : Machine) : Machine :=
  let s := m.usb.ep0_state.rx
  let bd := usb_get_bd 0 USB_EP_RX s.pingpong
  let thislen := if s.transfer_size > s.ep_maxsize then s.ep_maxsize else s.transfer_size
  let desc : USB_BD_t := { bd := bd_word thislen s.data01, addr := ptr_add s.data_buf s.pos }
  { m with
    usb := { m.usb with bdt := Function.update m.usb.bdt bd desc },
    armed := m.armed ++ [{ idx := bd, desc := desc }] }

/-- The `usb_rx_next` function: the new machine and the returned `int`. -/
def usb_rx_next (m : Machine) : Machine × Int :=
  let s := m.usb.ep0_state.rx
  let bd := usb_get_bd 0 USB_EP_RX s.pingpong
  let thislen := (m.usb.bdt bd).bc
  let s1 : usbd_ep_pipe_state_t :=
    { s with
      data01 := s.data01 ^^^ 1,
      transfer_size := size_sub s.transfer_size thislen,
      pos := size_add s.pos thislen,
      pingpong := s.pingpong ^^^ 1 }
  let m1 : Machine := { m with usb := { m.usb with ep0_state := { m.usb.ep0_state with rx := s1 } } }
  if thislen < s1.ep_maxsize ∨ s1.transfer_size = 0 then
    if s1.callback ≠ 0 then
      ({ m1 with calls := m1.calls ++
          [{ fn := s1.callback, buf := s1.data_buf, len := s1.pos, data := s1.callback_data }] }, 0)
    else
      (m1, 0)
  else
    (usb_rx_queue_next m1, 1)

/-- The `usb_rx` function: the new machine and the returned `int`. -/
def usb_rx (m : Machine) (buf len cb cb_data : Nat) : Machine × Int :=
  let s := m.usb.ep0_state.rx
  let s1 : usbd_ep_pipe_state_t :=
    { s with
      data_buf := buf,
      transfer_size := len,
      pos := 0,
      callback := cb,
      callback_data := cb_data }
  let m1 : Machine := { m with usb := { m.usb with ep0_state := { m.usb.ep0_state with rx := s1 } } }
  (usb_rx_queue_next m1, int_of_size len)

/-! ## Control transfers -/

/-- The bytes of the local `uint16_t zero16 = 0`. -/
def zero16 : List Nat := [0, 0]

/-- The bytes of an `int` object holding `v`, least significant first. -/
def int_bytes (v : Nat) : List Nat :=
  [v % 256, (v / 256) % 256, (v / 65536) % 256, (v / 16777216) % 256]

/-- The `usb_handle_control` function on an already decoded request: the new machine and
the returned `int` (`-1` is the `err` label). -/
def usb_handle_control (m : Machine) (req : usb_ctrl_req_t) : Machine × Int :=
  if req.type ≠ USB_CTRL_REQ_STD then
    (m, -1)
  else if req.request = USB_CTRL_REQ_GET_STATUS then
    usb_tx_cp m zero16 2
  else if req.request = USB_CTRL_REQ_CLEAR_FEATURE ∨ req.request = USB_CTRL_REQ_SET_FEATURE then
    (m, 0)
  else if req.request = USB_CTRL_REQ_SET_ADDRESS then
    ({ m with usb := { m.usb with
        address := req.value &&& 0x7f,
        state := USBD_STATE_SETTING_ADDRESS } }, 0)
  else if req.request = USB_CTRL_REQ_GET_DESCRIPTOR then
    (m, 0)
  else if req.request = USB_CTRL_REQ_GET_CONFIGURATION then
    usb_tx_cp m (int_bytes m.usb.config) 1
  else if req.request = USB_CTRL_REQ_SET_CONFIGURATION then
    ({ m with usb := { m.usb with
        config := req.value,
        state := USBD_STATE_CONFIGURED } }, 0)
  else if req.request = USB_CTRL_REQ_GET_INTERFACE then
    usb_tx_cp m zero16 1
  else if req.request = USB_CTRL_REQ_SET_INTERFACE then
    (m, -1)
  else
    (m, -1)

/-- The `usb_clear_transfers` function: zero the first four descriptors. -/
def usb_clear_transfers (m : Machine) : Machine :=
  { m with usb := { m.usb with
      bdt := fun i => if i < 4 then { bd := 0, addr := 0 } else m.usb.bdt i } }

/-- The `usb_setup_control` function. -/
def usb_setup_control (m : Machine) : Machine :=
  let buf := ep0_buf_row m.usb m.usb.ep0_state.rx.pingpong
  let m1 : Machine := { m with usb := { m.usb with ep0_state :=
    { rx := { m.usb.ep0_state.rx with data01 := USB_DATA01_DATA0 },
      tx := { m.usb.ep0_state.tx with data01 := USB_DATA01_DATA1 } } } }
  (usb_rx m1 buf EP0_BUFSIZE 0 0).1

/-- Index of the descriptor the pointer `usb_get_bd_stat(stat)` designates: its byte offset
over the descriptor size (status words have their two low bits clear, so the offset is a
multiple of eight). -/
def bd_index_stat (stat : Nat) : Nat := usb_get_bd_stat stat / 8

/-- Clearing the bit `USB0_CTL.txd_suspend` (bit 5 of the register). -/
def clear_txd_suspend (ctl : Nat) : Nat := ctl - 32 * ((ctl / 32) % 2)

/-- The request `usb_handle_control_ep` passes to `usb_handle_control` on a SETUP token:
`req = bd->addr`, read after `usb_clear_transfers()`. -/
def setup_req (m : Machine) (stat : Nat) : usb_ctrl_req_t :=
  let m1 := usb_clear_transfers m
  usb_ctrl_req_at m1.mem (m1.usb.bdt (bd_index_stat stat)).addr

/-- The `case USB_PID_SETUP` arm of `usb_handle_control_ep`. -/
def handle_setup (m : Machine) (stat : Nat) : Machine :=
  let m1 := usb_clear_transfers m
  let req := usb_ctrl_req_at m1.mem (m1.usb.bdt (bd_index_stat stat)).addr
  let (m2, r) := usb_handle_control m1 req
  let m3 : Machine :=
    if r = 0 then
      (usb_tx { m2 with usb := { m2.usb with ctrl_state := USBD_CTRL_STATE_STATUS } } 0 0 0 0 0).1
    else if r = -1 then
      usb_setup_control (usb_ep_stall m2 0)
    else
      { m2 with usb := { m2.usb with ctrl_state := USBD_CTRL_STATE_DATA } }
  { m3 with USB0_CTL := clear_txd_suspend m3.USB0_CTL }

/-- The code at the label `status_or_done` of `usb_handle_control_ep`. -/
def status_or_done (m : Machine) (stat : Nat) : Machine :=
  match m.usb.ctrl_state with
  | USBD_CTRL_STATE_DATA =>
    let m1 : Machine := { m with usb := { m.usb with ctrl_state := USBD_CTRL_STATE_STATUS } }
    if (m1.usb.bdt (bd_index_stat stat)).tok_pid = USB_PID_IN then
      let m2 : Machine := { m1 with usb := { m1.usb with ep0_state := { m1.usb.ep0_state with
        rx := { m1.usb.ep0_state.rx with data01 := USB_DATA01_DATA1 } } } }
      (usb_rx m2 0 0 0 0).1
    else
      let m2 : Machine := { m1 with usb := { m1.usb with ep0_state := { m1.usb.ep0_state with
        tx := { m1.usb.ep0_state.tx with data01 := USB_DATA01_DATA1 } } } }
      (usb_tx m2 0 0 0 0 0).1
  | _ =>
    let m1 : Machine := { m with usb := { m.usb with ctrl_state := USBD_CTRL_STATE_IDLE } }
    let m2 : Machine :=
      if m1.usb.state = USBD_STATE_SETTING_ADDRESS then
        { m1 with
          usb := { m1.usb with state := USBD_STATE_ADDRESS },
          USB0_ADDR := { m1.USB0_ADDR with addr := m1.usb.address % 128 } }
      else m1
    usb_setup_control m2

/-- The `usb_handle_control_ep` function. -/
def usb_handle_control_ep (m : Machine) (stat : Nat) : Machine :=
  let tok := (m.usb.bdt (bd_index_stat stat)).tok_pid
  if tok = USB_PID_SETUP then
    handle_setup m stat
  else if tok = USB_PID_IN then
    let (m1, r) := usb_tx_next m
    if r ≠ 0 then m1 else status_or_done m1 stat
  else if tok = USB_PID_OUT then
    let (m1, r) := usb_rx_next m
    if r ≠ 0 then m1 else status_or_done m1 stat
  else
    m

/-! ## Completion sequences

Between two events the controller owns the descriptors it was handed and rewrites them on
completion; the functions below make that explicit. -/

/-- TX completions, one call of `usb_tx_next` each, until it reports finished.  Before each
call the descriptor table is whatever the controller left (`t`); the result is the final
machine and the values `usb_tx_next` returned. -/
def tx_completions : List (Nat → USB_BD_t) → Machine → Machine × List Int
  | [], m => (m, [])
  | t :: rest, m =>
    let r := usb_tx_next { m with usb := { m.usb with bdt := t } }
    if r.2 = 0 then (r.1, [0])
    else ((tx_completions rest r.1).1, r.2 :: (tx_completions rest r.1).2)

/-- The controller completes the RX descriptor the driver reads next (slot
`rx.pingpong`), leaving `d` there. -/
def rx_complete (m : Machine) (d : USB_BD_t) : Machine :=
  { m with usb := { m.usb with
      bdt := Function.update m.usb.bdt (usb_get_bd 0 USB_EP_RX m.usb.ep0_state.rx.pingpong) d } }

/-- RX completions, one call of `usb_rx_next` each, until it reports finished. -/
def rx_completions : List USB_BD_t → Machine → Machine × List Int
  | [], m => (m, [])
  | d :: rest, m =>
    let r := usb_rx_next (rx_complete m d)
    if r.2 = 0 then (r.1, [0])
    else ((rx_completions rest r.1).1, r.2 :: (rx_completions rest r.1).2)

/-- The chunk length `usb_rx_queue_next` computes for the descriptor it arms: `thislen`, the
smaller of `transfer_size` and `ep_maxsize`.  Neither field changes between the arming of a
descriptor and the `usb_rx_next` call for its completion. -/
def rx_thislen (m : Machine) : Nat :=
  if m.usb.ep0_state.rx.transfer_size > m.usb.ep0_state.rx.ep_maxsize
    then m.usb.ep0_state.rx.ep_maxsize else m.usb.ep0_state.rx.transfer_size

/-- The machine after the RX completions `ds`, provided each completed descriptor reports a
byte count no larger than the chunk length the driver computed when it armed the descriptor
(`rx_thislen`; the byte count the armed descriptor itself carries is zero, see `bd_word`,
which is no larger either) and `usb_rx_next` asked for more every time. -/
def rx_in_flight : List USB_BD_t → Machine → Option Machine
  | [], m => some m
  | d :: rest, m =>
    if d.bc ≤ rx_thislen m then
      if (usb_rx_next (rx_complete m d)).2 = 1 then
        rx_in_flight rest (usb_rx_next (rx_complete m d)).1
      else none
    else none

/-! ## A concrete machine -/

/-- A pipe with everything zero except the maximum packet size. -/
def pipe_zero (M : Nat) : usbd_ep_pipe_state_t :=
  { pingpong := 0, data01 := 0, transfer_size := 0, pos := 0, data_buf := 0,
    short_transfer := 0, callback := 0, callback_data := 0, ep_maxsize := M }

/-- The statically zero-initialised driver with maximum packet size `M` on both pipes, the
scratch buffers at address `4096`, cleared registers, descriptors and memory, empty traces. -/
def machine_zero (M : Nat) : Machine :=
  { usb :=
      { bdt := fun _ => { bd := 0, addr := 0 },
        state := USBD_STATE_DISABLED,
        ctrl_state := USBD_CTRL_STATE_IDLE,
        ctrl_dir := 0,
        address := 0,
        config := 0,
        ep0_state := { rx := pipe_zero M, tx := pipe_zero M },
        ep0_buf := 4096 },
    USB0_ENDPT := fun _ =>
      { ephshk := 0, epstall := 0, eptxen := 0, eprxen := 0, epctldis := 0, retrydis := 0,
        hostwohub := 0 },
    USB0_ADDR := { addr := 0, lsen := 0 },
    USB0_CTL := 0,
    mem := fun _ => 0,
    armed := [],
    calls := [] }

/-! ## Closed forms used in the statements -/

/-- The descriptors `n` successive `usb_tx_queue_next` calls hand off, starting with
`ts` bytes left at offset `pos`, toggle `d` and slot `pp`, the toggle and the slot being
flipped between two calls. -/
def tx_chunks (M buf : Nat) : Nat → Nat → Nat → Nat → Nat → List bd_handoff
  | 0, _, _, _, _ => []
  | n + 1, ts, pos, d, pp =>
    { idx := usb_get_bd 0 USB_EP_TX pp,
      desc := { bd := bd_word (if ts > M then M else ts) d, addr := ptr_add buf pos } } ::
    tx_chunks M buf n (ts - (if ts > M then M else ts)) (pos + (if ts > M then M else ts))
      (d ^^^ 1) (pp ^^^ 1)

/-- Number of descriptors `usb_tx_next` still has to arm when `ts` bytes are left and the
short-transfer flag is `short`. -/
def tx_pending (M ts short : Nat) : Nat := (ts + M - 1) / M + (if short ≠ 0 then 1 else 0)

/-- State of an RX transfer into `buf` of `L` bytes with callback `cb(.., ctx)` on a pipe of
maximum packet size `M`, after `total` bytes were received: the pipe fields, the callback
trace `calls0` still as it was when the transfer started, and the descriptor the driver
reads next as `usb_rx_queue_next` left it, with a zero byte count. -/
def rx_inv (buf L cb ctx M : Nat) (calls0 : List callback_call) (total : Nat) (m : Machine) :
    Prop :=
  m.usb.ep0_state.rx.data_buf = buf ∧
  m.usb.ep0_state.rx.callback = cb ∧
  m.usb.ep0_state.rx.callback_data = ctx ∧
  m.usb.ep0_state.rx.ep_maxsize = M ∧
  m.usb.ep0_state.rx.pos = total ∧
  m.usb.ep0_state.rx.transfer_size + total = L ∧
  m.calls = calls0 ∧
  (m.usb.bdt (usb_get_bd 0 USB_EP_RX m.usb.ep0_state.rx.pingpong)).bc = 0

/-- The machine `machine_zero M` at the moment a SETUP token has completed on descriptor 0
(which pointed at the scratch buffer), with the bytes `req` at address `0`: that is where
`usb_handle_control_ep` reads the request from, the descriptor's `addr` being zero once
`usb_clear_transfers` has run. -/
def machine_setup (M : Nat) (req : List Nat) : Machine :=
  { machine_zero M with
    usb := { (machine_zero M).usb with bdt := fun _ => { bd := USB_PID_SETUP * 4, addr := 4096 } },
    mem := fun a => req.getD a 0 }

/-- The word of a `struct USB_STAT_t` whose fields are `pingpong` (bit 2), `dir` (bit 3) and
`ep` (bits 4..7), every other bit being zero. -/
def usb_stat_word (ep dir pingpong : Nat) : Nat :=
  (pingpong % 2) * 4 + (dir % 2) * 8 + (ep % 16) * 16

/-- The machine `m` with the control stage set to `cs`. -/
def with_ctrl_state (m : Machine) (cs : usbd_ctrl_state) : Machine :=
  { m with usb := { m.usb with ctrl_state := cs } }

/-- The machine `m` with the device state set to `st`. -/
def with_dev_state (m : Machine) (st : usbd_dev_state) : Machine :=
  { m with usb := { m.usb with state := st } }

/-- The machine `machine_zero M` in the data stage at the moment a token `tok` has
completed (every descriptor reports `tok`), nothing being left to send or receive. -/
def machine_data (M tok : Nat) : Machine :=
  { machine_zero M with
    usb := { (machine_zero M).usb with
      bdt := fun _ => { bd := tok * 4, addr := 0 },
      ctrl_state := USBD_CTRL_STATE_DATA } }

/-- The machine `machine_zero M` at the moment a SETUP token has completed on descriptor 0,
which pointed at the scratch buffer at address `4096` where the SETUP packet `req` was
received; the rest of memory holds zeros. -/
def machine_setup_received (M : Nat) (req : List Nat) : Machine :=
  { machine_zero M with
    usb := { (machine_zero M).usb with bdt := fun _ => { bd := USB_PID_SETUP * 4, addr := 4096 } },
    mem := fun a => if 4096 ≤ a then req.getD (a - 4096) 0 else 0 }

/-! ## Machine integers: basic facts -/

theorem size_add_of_lt {a b : Nat} (h : a + b < SIZE_MOD) : size_add a b = a + b := by
  unfold size_add
  exact Nat.mod_eq_of_lt h

theorem size_sub_of_le {a b : Nat} (hb : b ≤ a) (ha : a < SIZE_MOD) : size_sub a b = a - b := by
  unfold size_sub SIZE_MOD at *
  omega

theorem int_of_size_small {a : Nat} (h : a < 2147483648) : int_of_size a = (a : Int) := by
  unfold int_of_size SIZE_MOD
  have h1 : a % 4294967296 = a := Nat.mod_eq_of_lt (by omega)
  rw [h1, if_pos h]

theorem ptr_add_of_lt {p off : Nat} (h : p + off < SIZE_MOD) : ptr_add p off = p + off := by
  unfold ptr_add
  exact Nat.mod_eq_of_lt h

theorem ptr_add_zero_zero : ptr_add 0 0 = 0 := rfl

/-! ## The descriptor word -/

/-- The byte count of the word the driver writes is zero, whatever chunk length the literal
names. -/
theorem bd_word_bc (l d a : Nat) : (USB_BD_t.mk (bd_word l d) a).bc = 0 := by
  unfold USB_BD_t.bc bd_word
  simp only []
  omega

theorem bd_word_data01 (l d a : Nat) : (USB_BD_t.mk (bd_word l d) a).data01 = d % 2 := by
  unfold USB_BD_t.data01 bd_word
  simp only []
  omega

theorem bd_word_own (l d a : Nat) : (USB_BD_t.mk (bd_word l d) a).own = 1 := by
  unfold USB_BD_t.own bd_word
  simp only []
  omega

/-- The `dts` bit of the word the driver writes is zero as well. -/
theorem bd_word_dts (l d a : Nat) : (USB_BD_t.mk (bd_word l d) a).dts = 0 := by
  unfold USB_BD_t.dts bd_word
  simp only []
  omega

/-! ## Toggles -/

theorem xor_one_xor_one (d : Nat) : (d ^^^ 1) ^^^ 1 = d := by
  rw [Nat.xor_assoc, Nat.xor_self, Nat.xor_zero]

theorem xor_one_le_one {d : Nat} (h : d ≤ 1) : d ^^^ 1 ≤ 1 := by
  interval_cases d <;> decide

theorem xor_one_ne (d : Nat) : d ^^^ 1 ≠ d := by
  intro h
  have h2 : (d ^^^ d) ^^^ 1 = d ^^^ d := by
    rw [Nat.xor_assoc, h]
  rw [Nat.xor_self] at h2
  exact absurd h2 (by decide)

theorem xor_parity_succ (d k : Nat) : (d ^^^ 1) ^^^ (k % 2) = d ^^^ ((k + 1) % 2) := by
  rcases Nat.mod_two_eq_zero_or_one k with h | h
  · have h1 : (k + 1) % 2 = 1 := by omega
    rw [h, h1, Nat.xor_zero]
  · have h1 : (k + 1) % 2 = 0 := by omega
    rw [h, h1, Nat.xor_zero, xor_one_xor_one]

theorem xor_parity_le_one {d : Nat} (h : d ≤ 1) (k : Nat) : d ^^^ (k % 2) ≤ 1 := by
  rcases Nat.mod_two_eq_zero_or_one k with h1 | h1
  · rw [h1, Nat.xor_zero]; exact h
  · rw [h1]; exact xor_one_le_one h

/-! ## TX engine: single steps -/

theorem tx_chunks_succ (M buf n ts pos d pp : Nat) :
    tx_chunks M buf (n + 1) ts pos d pp =
      tx_chunks M buf 1 ts pos d pp ++
        tx_chunks M buf n (ts - (if ts > M then M else ts)) (pos + (if ts > M then M else ts))
          (d ^^^ 1) (pp ^^^ 1) := rfl

theorem ceil_div_step {M ts : Nat} (hM : 1 ≤ M) (hts : 0 < ts) :
    (ts - (if ts > M then M else ts) + M - 1) / M + 1 = (ts + M - 1) / M := by
  by_cases h : ts > M
  · rw [if_pos h]
    have h1 : ts - M + M - 1 = ts - 1 := by omega
    have h2 : ts + M - 1 = ts - 1 + M := by omega
    rw [h1, h2, Nat.add_div_right _ (by omega : 0 < M)]
  · rw [if_neg h]
    have h1 : ts - ts + M - 1 = M - 1 := by omega
    have h2 : ts + M - 1 = (ts - 1) + M := by omega
    rw [h1, h2, Nat.add_div_right _ (by omega : 0 < M), Nat.div_eq_of_lt (by omega),
      Nat.div_eq_of_lt (by omega)]

theorem thislen_le (ts M : Nat) : (if ts > M then M else ts) ≤ ts := by
  split <;> omega

/-- A call of `usb_tx_next` with data left or a short packet owed arms one descriptor. -/
theorem usb_tx_next_more (m : Machine)
    (h : 0 < m.usb.ep0_state.tx.transfer_size ∨ m.usb.ep0_state.tx.short_transfer ≠ 0)
    (hr : m.usb.ep0_state.tx.pos + m.usb.ep0_state.tx.transfer_size < SIZE_MOD) :
    (usb_tx_next m).2 = 1 ∧
    (usb_tx_next m).1.usb.ep0_state.tx =
      { m.usb.ep0_state.tx with
        data01 := m.usb.ep0_state.tx.data01 ^^^ 1,
        pos := m.usb.ep0_state.tx.pos +
          (if m.usb.ep0_state.tx.transfer_size > m.usb.ep0_state.tx.ep_maxsize
            then m.usb.ep0_state.tx.ep_maxsize else m.usb.ep0_state.tx.transfer_size),
        transfer_size := m.usb.ep0_state.tx.transfer_size -
          (if m.usb.ep0_state.tx.transfer_size > m.usb.ep0_state.tx.ep_maxsize
            then m.usb.ep0_state.tx.ep_maxsize else m.usb.ep0_state.tx.transfer_size),
        pingpong := m.usb.ep0_state.tx.pingpong ^^^ 1,
        short_transfer := if 0 < m.usb.ep0_state.tx.transfer_size
          then m.usb.ep0_state.tx.short_transfer else 0 } ∧
    (usb_tx_next m).1.armed = m.armed ++
      tx_chunks m.usb.ep0_state.tx.ep_maxsize m.usb.ep0_state.tx.data_buf 1
        m.usb.ep0_state.tx.transfer_size m.usb.ep0_state.tx.pos
        (m.usb.ep0_state.tx.data01 ^^^ 1) m.usb.ep0_state.tx.pingpong ∧
    (usb_tx_next m).1.calls = m.calls := by
  have hle : (if m.usb.ep0_state.tx.transfer_size > m.usb.ep0_state.tx.ep_maxsize
            then m.usb.ep0_state.tx.ep_maxsize else m.usb.ep0_state.tx.transfer_size) ≤
            m.usb.ep0_state.tx.transfer_size := by
    split <;> omega
  have hadd := size_add_of_lt (a := m.usb.ep0_state.tx.pos) (b := (if m.usb.ep0_state.tx.transfer_size > m.usb.ep0_state.tx.ep_maxsize
            then m.usb.ep0_state.tx.ep_maxsize else m.usb.ep0_state.tx.transfer_size)) (by omega)
  have hsub := size_sub_of_le hle (by omega)
  by_cases hts : 0 < m.usb.ep0_state.tx.transfer_size
  · simp only [usb_tx_next, tx_toggle, hts, if_true, usb_tx_queue_next, tx_chunks, hadd, hsub]
    simp
  · have h0 : m.usb.ep0_state.tx.transfer_size = 0 := by omega
    have hs : m.usb.ep0_state.tx.short_transfer ≠ 0 := by
      rcases h with h | h
      · omega
      · exact h
    have hp : size_add m.usb.ep0_state.tx.pos 0 = m.usb.ep0_state.tx.pos :=
      size_add_of_lt (by omega)
    have hz : size_sub 0 0 = 0 := by decide
    simp [usb_tx_next, tx_toggle, h0, hs, usb_tx_queue_next, tx_chunks, hp, hz]

/-- A call of `usb_tx_next` with nothing left and no short packet owed finishes. -/
theorem usb_tx_next_done (m : Machine)
    (h0 : m.usb.ep0_state.tx.transfer_size = 0) (hs : m.usb.ep0_state.tx.short_transfer = 0) :
    (usb_tx_next m).2 = 0 ∧
    (usb_tx_next m).1.armed = m.armed ∧
    (usb_tx_next m).1.calls = m.calls ++
        (if m.usb.ep0_state.tx.callback ≠ 0 then
          [{ fn := m.usb.ep0_state.tx.callback, buf := m.usb.ep0_state.tx.data_buf, len := 0,
             data := m.usb.ep0_state.tx.callback_data }] else []) := by
  by_cases hcb : m.usb.ep0_state.tx.callback = 0
  · simp [usb_tx_next, tx_toggle, h0, hs, hcb]
  · simp [usb_tx_next, tx_toggle, h0, hs, hcb]

theorem tx_pending_step {M ts short : Nat} (hM : 1 ≤ M) (h : 0 < ts ∨ short ≠ 0) :
    tx_pending M (ts - (if ts > M then M else ts)) (if 0 < ts then short else 0) + 1 =
      tx_pending M ts short := by
  unfold tx_pending
  by_cases hts : 0 < ts
  · rw [if_pos hts, ← ceil_div_step hM hts]
    omega
  · have h0 : ts = 0 := by omega
    have hs : short ≠ 0 := by
      rcases h with h | h
      · omega
      · exact h
    subst h0
    have hd : (0 + M - 1) / M = 0 := Nat.div_eq_of_lt (by omega)
    simp [hs, hd]

theorem tx_pending_zero {M : Nat} (hM : 1 ≤ M) : tx_pending M 0 0 = 0 := by
  unfold tx_pending
  have hd : (M - 1) / M = 0 := Nat.div_eq_of_lt (by omega)
  simp [hd]

/-- Running TX completions from any machine whose TX pipe holds `ts` bytes at offset `pos`
without overflow: `usb_tx_next` arms `tx_pending` more descriptors, returning `1` each
time, and then returns `0` after invoking the callback (when there is one). -/
theorem tx_completions_run (hws : List (Nat → USB_BD_t)) :
    ∀ m : Machine, 1 ≤ m.usb.ep0_state.tx.ep_maxsize →
      m.usb.ep0_state.tx.pos + m.usb.ep0_state.tx.transfer_size < SIZE_MOD →
      tx_pending m.usb.ep0_state.tx.ep_maxsize m.usb.ep0_state.tx.transfer_size
        m.usb.ep0_state.tx.short_transfer < hws.length →
      (tx_completions hws m).2 =
        List.replicate (tx_pending m.usb.ep0_state.tx.ep_maxsize
          m.usb.ep0_state.tx.transfer_size m.usb.ep0_state.tx.short_transfer) 1 ++ [0] ∧
      (tx_completions hws m).1.armed = m.armed ++
        tx_chunks m.usb.ep0_state.tx.ep_maxsize m.usb.ep0_state.tx.data_buf
          (tx_pending m.usb.ep0_state.tx.ep_maxsize m.usb.ep0_state.tx.transfer_size
            m.usb.ep0_state.tx.short_transfer)
          m.usb.ep0_state.tx.transfer_size m.usb.ep0_state.tx.pos
          (m.usb.ep0_state.tx.data01 ^^^ 1) m.usb.ep0_state.tx.pingpong ∧
      (tx_completions hws m).1.calls = m.calls ++
        (if m.usb.ep0_state.tx.callback ≠ 0 then
          [{ fn := m.usb.ep0_state.tx.callback, buf := m.usb.ep0_state.tx.data_buf, len := 0,
             data := m.usb.ep0_state.tx.callback_data }] else []) := by
  induction hws with
  | nil => intro m _ _ h; simp at h
  | cons t rest ih =>
    intro m hM hr hlen
    by_cases hmore : 0 < m.usb.ep0_state.tx.transfer_size ∨ m.usb.ep0_state.tx.short_transfer ≠ 0
    · obtain ⟨h2, htx, harm, hcalls⟩ :=
        usb_tx_next_more { m with usb := { m.usb with bdt := t } } hmore hr
      simp only at h2 htx harm hcalls
      have hp := tx_pending_step hM hmore
      have hlen2 : tx_pending m.usb.ep0_state.tx.ep_maxsize
          (m.usb.ep0_state.tx.transfer_size -
            (if m.usb.ep0_state.tx.transfer_size > m.usb.ep0_state.tx.ep_maxsize
              then m.usb.ep0_state.tx.ep_maxsize else m.usb.ep0_state.tx.transfer_size))
          (if 0 < m.usb.ep0_state.tx.transfer_size then m.usb.ep0_state.tx.short_transfer else 0)
          < rest.length := by
        simp only [List.length_cons] at hlen
        omega
      have hle : (if m.usb.ep0_state.tx.transfer_size > m.usb.ep0_state.tx.ep_maxsize
            then m.usb.ep0_state.tx.ep_maxsize else m.usb.ep0_state.tx.transfer_size) ≤
            m.usb.ep0_state.tx.transfer_size := by
        split <;> omega
      obtain ⟨i1, i2, i3⟩ := ih (usb_tx_next { m with usb := { m.usb with bdt := t } }).1
        (by rw [htx]; exact hM) (by rw [htx]; simp only; omega) (by rw [htx]; exact hlen2)
      rw [htx] at i1 i2 i3
      simp only at i1 i2 i3
      have hne : (usb_tx_next { m with usb := { m.usb with bdt := t } }).2 ≠ 0 := by
        rw [h2]; decide
      simp only [tx_completions, if_neg hne]
      refine ⟨?_, ?_, ?_⟩
      · rw [i1, h2, ← hp, List.replicate_succ, List.cons_append]
      · rw [i2, harm, ← hp, List.append_assoc]
        rfl
      · rw [i3, hcalls]
    · have h0 : m.usb.ep0_state.tx.transfer_size = 0 := by omega
      have hs : m.usb.ep0_state.tx.short_transfer = 0 := by
        by_contra hc
        exact hmore (Or.inr hc)
      obtain ⟨h2, harm, hcalls⟩ :=
        usb_tx_next_done { m with usb := { m.usb with bdt := t } } h0 hs
      simp only at h2 harm hcalls
      simp only [tx_completions, if_pos h2]
      rw [h0, hs, tx_pending_zero hM]
      refine ⟨rfl, ?_, ?_⟩
      · rw [harm]; simp [tx_chunks]
      · rw [hcalls]

/-- What `usb_tx` leaves behind: the TX pipe, the traces and the returned value. -/
theorem usb_tx_effect (m : Machine) (buf len reqlen cb cb_data : Nat)
    (hlt : (if len > reqlen then reqlen else len) < SIZE_MOD) :
    (usb_tx m buf len reqlen cb cb_data).1.usb.ep0_state.tx =
      { m.usb.ep0_state.tx with
        data_buf := buf,
        callback := cb,
        callback_data := cb_data,
        short_transfer := if (if len > reqlen then reqlen else len) = reqlen then 0 else 1,
        pos := (if (if len > reqlen then reqlen else len) > m.usb.ep0_state.tx.ep_maxsize
            then m.usb.ep0_state.tx.ep_maxsize else (if len > reqlen then reqlen else len)),
        transfer_size := (if len > reqlen then reqlen else len) -
          (if (if len > reqlen then reqlen else len) > m.usb.ep0_state.tx.ep_maxsize
            then m.usb.ep0_state.tx.ep_maxsize else (if len > reqlen then reqlen else len)),
        pingpong := m.usb.ep0_state.tx.pingpong ^^^ 1 } ∧
    (usb_tx m buf len reqlen cb cb_data).1.armed = m.armed ++
      tx_chunks m.usb.ep0_state.tx.ep_maxsize buf 1 (if len > reqlen then reqlen else len) 0
        m.usb.ep0_state.tx.data01 m.usb.ep0_state.tx.pingpong ∧
    (usb_tx m buf len reqlen cb cb_data).1.calls = m.calls ∧
    (usb_tx m buf len reqlen cb cb_data).2 =
      int_of_size ((if len > reqlen then reqlen else len) -
          (if (if len > reqlen then reqlen else len) > m.usb.ep0_state.tx.ep_maxsize
            then m.usb.ep0_state.tx.ep_maxsize else (if len > reqlen then reqlen else len))) := by
  have hle : (if (if len > reqlen then reqlen else len) > m.usb.ep0_state.tx.ep_maxsize
            then m.usb.ep0_state.tx.ep_maxsize else (if len > reqlen then reqlen else len)) ≤
            (if len > reqlen then reqlen else len) := thislen_le _ _
  have hadd := size_add_of_lt (a := 0) (b := (if (if len > reqlen then reqlen else len) >
      m.usb.ep0_state.tx.ep_maxsize then m.usb.ep0_state.tx.ep_maxsize
      else (if len > reqlen then reqlen else len))) (by omega)
  have hsub := size_sub_of_le hle hlt
  simp only [usb_tx, usb_tx_queue_next, tx_chunks, hadd, hsub]
  simp

/-- A whole TX transfer: `usb_tx` and then one `usb_tx_next` per completion.  With `E` the
effective length, `usb_tx_next` returns `1` exactly `tx_pending` times and then `0`; the
descriptors handed off are the chunks of `E` bytes from offset `0`. -/
theorem tx_transfer_run (m : Machine) (buf len reqlen cb cb_data : Nat)
    (hws : List (Nat → USB_BD_t))
    (hM : 1 ≤ m.usb.ep0_state.tx.ep_maxsize)
    (hlt : (if len > reqlen then reqlen else len) < SIZE_MOD)
    (hlen : tx_pending m.usb.ep0_state.tx.ep_maxsize
        ((if len > reqlen then reqlen else len) -
          (if (if len > reqlen then reqlen else len) > m.usb.ep0_state.tx.ep_maxsize
            then m.usb.ep0_state.tx.ep_maxsize else (if len > reqlen then reqlen else len)))
        (if (if len > reqlen then reqlen else len) = reqlen then 0 else 1) < hws.length) :
    (tx_completions hws (usb_tx m buf len reqlen cb cb_data).1).2 =
      List.replicate (tx_pending m.usb.ep0_state.tx.ep_maxsize
        ((if len > reqlen then reqlen else len) -
          (if (if len > reqlen then reqlen else len) > m.usb.ep0_state.tx.ep_maxsize
            then m.usb.ep0_state.tx.ep_maxsize else (if len > reqlen then reqlen else len)))
        (if (if len > reqlen then reqlen else len) = reqlen then 0 else 1)) 1 ++ [0] ∧
    (tx_completions hws (usb_tx m buf len reqlen cb cb_data).1).1.armed = m.armed ++
      tx_chunks m.usb.ep0_state.tx.ep_maxsize buf
        (tx_pending m.usb.ep0_state.tx.ep_maxsize
          ((if len > reqlen then reqlen else len) -
            (if (if len > reqlen then reqlen else len) > m.usb.ep0_state.tx.ep_maxsize
              then m.usb.ep0_state.tx.ep_maxsize else (if len > reqlen then reqlen else len)))
          (if (if len > reqlen then reqlen else len) = reqlen then 0 else 1) + 1)
        (if len > reqlen then reqlen else len) 0
        m.usb.ep0_state.tx.data01 m.usb.ep0_state.tx.pingpong ∧
    (tx_completions hws (usb_tx m buf len reqlen cb cb_data).1).1.calls = m.calls ++
      (if cb ≠ 0 then [{ fn := cb, buf := buf, len := 0, data := cb_data }] else []) := by
  obtain ⟨htx, harm, hcalls, -⟩ := usb_tx_effect m buf len reqlen cb cb_data hlt
  have hle : (if (if len > reqlen then reqlen else len) > m.usb.ep0_state.tx.ep_maxsize
            then m.usb.ep0_state.tx.ep_maxsize else (if len > reqlen then reqlen else len)) ≤
            (if len > reqlen then reqlen else len) := thislen_le _ _
  obtain ⟨i1, i2, i3⟩ := tx_completions_run hws (usb_tx m buf len reqlen cb cb_data).1
    (by rw [htx]; exact hM) (by rw [htx]; simp only; omega) (by rw [htx]; exact hlen)
  rw [htx] at i1 i2 i3
  simp only at i1 i2 i3
  refine ⟨i1, ?_, ?_⟩
  · rw [i2, harm, List.append_assoc]
    conv_rhs => rw [tx_chunks_succ, Nat.zero_add]
  · rw [i3, hcalls]

/-! ## The chunk list -/

theorem eff_len_eq_min (len reqlen : Nat) : (if len > reqlen then reqlen else len) = min len reqlen := by
  split <;> omega

theorem tx_chunks_length (M buf n : Nat) :
    ∀ ts pos d pp : Nat, (tx_chunks M buf n ts pos d pp).length = n := by
  induction n with
  | zero => intro ts pos d pp; rfl
  | succ n ih => intro ts pos d pp; simp [tx_chunks, ih]

/-- Every descriptor of the chunk list carries byte count zero, whatever the chunk length:
the descriptor literal does not store `thislen` (see `bd_word`). -/
theorem tx_chunks_bc (M buf n : Nat) :
    ∀ ts pos d pp : Nat,
      (tx_chunks M buf n ts pos d pp).map (fun a => a.desc.bc) = List.replicate n 0 := by
  induction n with
  | zero => intro ts pos d pp; rfl
  | succ n ih =>
    intro ts pos d pp
    simp only [tx_chunks, List.map_cons, bd_word_bc, List.replicate_succ]
    rw [ih]

/-- The `k`-th descriptor of the chunk list points `min (k * M) ts` bytes past the first
one: the offset advances by the chunk length, not by the byte count stored. -/
theorem tx_chunks_addr (M buf : Nat) (n : Nat) :
    ∀ (ts pos d pp k : Nat) (x : bd_handoff),
      (tx_chunks M buf n ts pos d pp)[k]? = some x →
      x.desc.addr = ptr_add buf (pos + min (k * M) ts) := by
  induction n with
  | zero => intro ts pos d pp k x h; simp [tx_chunks] at h
  | succ n ih =>
    intro ts pos d pp k x h
    cases k with
    | zero =>
      simp only [tx_chunks, List.getElem?_cons_zero, Option.some.injEq] at h
      subst h
      simp
    | succ k =>
      simp only [tx_chunks, List.getElem?_cons_succ] at h
      rw [ih _ _ _ _ k x h]
      congr 1
      rw [Nat.succ_mul]
      generalize k * M = c
      split <;> omega

theorem tx_chunks_data01 (M buf n : Nat) :
    ∀ (ts pos d pp k : Nat) (x : bd_handoff),
      (tx_chunks M buf n ts pos d pp)[k]? = some x →
      x.desc.data01 = (d ^^^ (k % 2)) % 2 := by
  induction n with
  | zero => intro ts pos d pp k x h; simp [tx_chunks] at h
  | succ n ih =>
    intro ts pos d pp k x h
    cases k with
    | zero =>
      simp only [tx_chunks, List.getElem?_cons_zero, Option.some.injEq] at h
      subst h
      simp [bd_word_data01]
    | succ k =>
      simp only [tx_chunks, List.getElem?_cons_succ] at h
      rw [ih _ _ _ _ k x h, xor_parity_succ]

/-! ## Counting packets -/

theorem ceil_bounds (E M : Nat) (hM : 1 ≤ M) :
    E ≤ ((E + M - 1) / M) * M ∧ ((E + M - 1) / M) * M ≤ E + M - 1 := by
  have h1 := Nat.div_add_mod (E + M - 1) M
  have h2 := Nat.mod_lt (E + M - 1) (by omega : M > 0)
  rw [Nat.mul_comm] at h1
  generalize (E + M - 1) / M * M = c at *
  omega

theorem ceil_mul_ge (E M : Nat) (hM : 1 ≤ M) : E ≤ ((E + M - 1) / M) * M :=
  (ceil_bounds E M hM).1

theorem ceil_pos (E M : Nat) (hM : 1 ≤ M) (hE : 0 < E) : 1 ≤ (E + M - 1) / M := by
  have h := ceil_mul_ge E M hM
  generalize (E + M - 1) / M = c at *
  rcases Nat.eq_zero_or_pos c with h0 | h0
  · subst h0
    omega
  · exact h0

theorem ceil_pred_mul_lt (E M : Nat) (hM : 1 ≤ M) (hE : 0 < E) :
    ((E + M - 1) / M - 1) * M < E := by
  have h := (ceil_bounds E M hM).2
  have hp := ceil_pos E M hM hE
  have e : ((E + M - 1) / M - 1) * M = ((E + M - 1) / M) * M - M := by
    rw [Nat.sub_mul, Nat.one_mul]
  rw [e]
  generalize (E + M - 1) / M * M = c at *
  omega

theorem ceil_zero (M : Nat) (hM : 1 ≤ M) : (0 + M - 1) / M = 0 :=
  Nat.div_eq_of_lt (by omega)

theorem ceil_of_dvd (L M : Nat) (hM : 1 ≤ M) (h : L % M = 0) : (L + M - 1) / M = L / M := by
  have h1 : L = M * (L / M) := by
    have := Nat.div_add_mod L M
    omega
  have h2 : L + M - 1 = M * (L / M) + (M - 1) := by omega
  rw [h2, Nat.mul_add_div (by omega : 0 < M), Nat.div_eq_of_lt (by omega : M - 1 < M)]
  rfl

/-- Number of descriptors of a whole transfer of effective length `E`, in closed form. -/
theorem tx_pending_total (M E s : Nat) (hM : 1 ≤ M) :
    tx_pending M (E - (if E > M then M else E)) s + 1 =
      ((E + M - 1) / M - 1) + 1 + (if s ≠ 0 then 1 else 0) := by
  unfold tx_pending
  by_cases hE : 0 < E
  · have h1 := ceil_div_step hM hE
    have h2 := ceil_pos E M hM hE
    generalize (E + M - 1) / M = c at *
    generalize (E - (if E > M then M else E) + M - 1) / M = c2 at *
    omega
  · have h0 : E = 0 := by omega
    subst h0
    have h1 : (if 0 > M then M else 0) = 0 := by split <;> omega
    have h2 := ceil_zero M hM
    rw [h1]
    simp only [Nat.sub_zero, h2]
    omega

/-- A whole TX transfer in closed form: with `E = min len reqlen`, `q` full-size packets
before the last data packet and `z` the short-transfer flag, `usb_tx_next` returns `1`
exactly `q + z` times and then `0`, and `q + 1 + z` descriptors are handed off. -/
theorem tx_transfer_closed (m : Machine) (buf len reqlen cb cb_data : Nat)
    (hws : List (Nat → USB_BD_t)) (M E q z : Nat)
    (hMeq : m.usb.ep0_state.tx.ep_maxsize = M) (hM : 1 ≤ M)
    (hE : E = min len reqlen) (hlt : E < SIZE_MOD)
    (hq : q = (E + M - 1) / M - 1) (hz : z = if E = reqlen then 0 else 1)
    (hlen : q + 1 + z ≤ hws.length) :
    (tx_completions hws (usb_tx m buf len reqlen cb cb_data).1).2 =
      List.replicate (q + z) 1 ++ [0] ∧
    (tx_completions hws (usb_tx m buf len reqlen cb cb_data).1).1.armed = m.armed ++
      tx_chunks M buf (q + 1 + z) E 0 m.usb.ep0_state.tx.data01 m.usb.ep0_state.tx.pingpong ∧
    (tx_completions hws (usb_tx m buf len reqlen cb cb_data).1).1.calls = m.calls ++
      (if cb ≠ 0 then [{ fn := cb, buf := buf, len := 0, data := cb_data }] else []) := by
  have hEe : (if len > reqlen then reqlen else len) = E := by rw [hE, eff_len_eq_min]
  have htot := tx_pending_total M E (if E = reqlen then 0 else 1) hM
  have hz1 : (if (if E = reqlen then 0 else 1) ≠ 0 then 1 else 0) = z := by
    rw [hz]; split <;> simp
  rw [hz1, ← hq] at htot
  have hrun := tx_transfer_run m buf len reqlen cb cb_data hws (by rw [hMeq]; exact hM)
    (by rw [hEe]; exact hlt) (by rw [hEe, hMeq]; omega)
  rw [hEe, hMeq] at hrun
  obtain ⟨r1, r2, r3⟩ := hrun
  have hp : tx_pending M (E - if E > M then M else E) (if E = reqlen then 0 else 1) = q + z := by
    omega
  rw [hp] at r1 r2
  have hqz : q + z + 1 = q + 1 + z := by omega
  rw [hqz] at r2
  exact ⟨r1, r2, r3⟩

/-! ## Claims about the TX engine -/

/-- C1 (code defect).  `usb_tx` does not return the effective transfer length
`min(len, reqlen)`: it returns `transfer_size` after the first chunk has been subtracted.
With maximum packet size 64, `usb_tx(buf, 10, 10, ..)` returns `0` and
`usb_tx(buf, 100, 100, ..)` returns `36`. -/
theorem usb_tx_return_is_remainder :
    (usb_tx (machine_zero 64) 500 10 10 0 0).2 = 0 ∧
    (usb_tx (machine_zero 64) 500 10 10 0 0).2 ≠ ((min 10 10 : Nat) : Int) ∧
    (usb_tx (machine_zero 64) 500 100 100 0 0).2 = 36 ∧
    (usb_tx (machine_zero 64) 500 100 100 0 0).2 ≠ ((min 100 100 : Nat) : Int) := by
  decide

/-- C2 (code defect).  With maximum packet size 8, `usb_tx(buf, 1, 2, ..)` (length 1 is not
a multiple of 8, requested length 2 is at least 1) arms two descriptors before
`usb_tx_next` returns `0`, not `ceil(1/8) = 1`.  The one-byte packet already is a short
packet, which ends the transfer for the host; but `usb_tx` sets `short_transfer` whenever
the length differs from the requested length, and `usb_tx_next` then queues one more
descriptor. -/
theorem tx_chunk_count_nonmultiple_fails :
    1 % 8 ≠ 0 ∧ 1 ≤ 2 ∧
    (tx_completions [fun _ => ⟨0, 0⟩, fun _ => ⟨0, 0⟩]
      (usb_tx (machine_zero 8) 500 1 2 0 0).1).2 = [1, 0] ∧
    (tx_completions [fun _ => ⟨0, 0⟩, fun _ => ⟨0, 0⟩]
      (usb_tx (machine_zero 8) 500 1 2 0 0).1).1.armed.length = 2 ∧
    ¬ ((tx_completions [fun _ => ⟨0, 0⟩, fun _ => ⟨0, 0⟩]
      (usb_tx (machine_zero 8) 500 1 2 0 0).1).1.armed.length = (1 + 8 - 1) / 8) := by
  decide

/-- Descriptor count of a transfer whose length is not a multiple of the packet size.  For
maximum packet size `M ≥ 1`, a length `L` (a `size_t`) that is not a multiple of `M` and a
requested length `reqlen ≥ L`, `usb_tx` followed by one `usb_tx_next` per completion arms
`ceil(L/M)` descriptors when `reqlen = L` and one more whenever `reqlen > L`: `usb_tx_next`
returns `1` for every descriptor after the first and then `0`. -/
theorem tx_chunk_count_nonmultiple (m : Machine) (buf L reqlen cb cb_data : Nat)
    (hws : List (Nat → USB_BD_t)) (M : Nat)
    (hMeq : m.usb.ep0_state.tx.ep_maxsize = M) (hM : 1 ≤ M)
    (hmod : L % M ≠ 0) (hreq : L ≤ reqlen) (hL : L < SIZE_MOD)
    (hlen : (L + M - 1) / M + (if reqlen = L then 0 else 1) ≤ hws.length) :
    (tx_completions hws (usb_tx m buf L reqlen cb cb_data).1).2 =
      List.replicate ((L + M - 1) / M + (if reqlen = L then 0 else 1) - 1) 1 ++ [0] ∧
    (tx_completions hws (usb_tx m buf L reqlen cb cb_data).1).1.armed.length =
      m.armed.length + ((L + M - 1) / M + (if reqlen = L then 0 else 1)) := by
  have hpos : 0 < L := by
    rcases Nat.eq_zero_or_pos L with h | h
    · subst h; simp at hmod
    · exact h
  have hc := ceil_pos L M hM hpos
  have hz : (if L = reqlen then 0 else 1) = (if reqlen = L then 0 else 1) := by
    by_cases h : L = reqlen
    · simp [h]
    · have h2 : ¬ reqlen = L := fun e => h e.symm
      simp [h, h2]
  obtain ⟨r1, r2, -⟩ := tx_transfer_closed m buf L reqlen cb cb_data hws M L
    ((L + M - 1) / M - 1) (if L = reqlen then 0 else 1) hMeq hM
    (by rw [Nat.min_eq_left hreq]) hL rfl rfl (by rw [hz]; omega)
  rw [hz] at r1 r2
  refine ⟨?_, ?_⟩
  · rw [r1]
    congr 2
    omega
  · rw [r2, List.length_append, tx_chunks_length]
    omega

/-- Instance of the descriptor count: 20 bytes, requested 20, maximum packet size 8. -/
theorem tx_chunk_count_nonmultiple_witness :
    (tx_completions [fun _ => ⟨0, 0⟩, fun _ => ⟨0, 0⟩, fun _ => ⟨0, 0⟩]
      (usb_tx (machine_zero 8) 500 20 20 7 9).1).2 =
      List.replicate ((20 + 8 - 1) / 8 + (if 20 = 20 then 0 else 1) - 1) 1 ++ [0] ∧
    (tx_completions [fun _ => ⟨0, 0⟩, fun _ => ⟨0, 0⟩, fun _ => ⟨0, 0⟩]
      (usb_tx (machine_zero 8) 500 20 20 7 9).1).1.armed.length =
      (machine_zero 8).armed.length + ((20 + 8 - 1) / 8 + (if 20 = 20 then 0 else 1)) :=
  tx_chunk_count_nonmultiple (machine_zero 8) 500 20 20 7 9
    [fun _ => ⟨0, 0⟩, fun _ => ⟨0, 0⟩, fun _ => ⟨0, 0⟩] 8 rfl (by decide) (by decide)
    (by decide) (by decide) (by decide)

/-- C3 (code defect).  With maximum packet size 8, `usb_tx(buf, 16, 20, ..)` arms
`16/8 + 1 = 3` descriptors and `usb_tx_next` returns `1, 1, 0`, as many as the claim says;
but the byte count stored in each of them is `0`, not `8, 8, 0`: the descriptor literal of
`usb_tx_queue_next` names `.bc = thislen`, and the word it yields holds `data01` and `own`
only. -/
theorem tx_exact_multiple_byte_counts :
    0 < 16 ∧ 16 % 8 = 0 ∧ 16 < 20 ∧
    (tx_completions [fun _ => ⟨0, 0⟩, fun _ => ⟨0, 0⟩, fun _ => ⟨0, 0⟩]
      (usb_tx (machine_zero 8) 500 16 20 0 0).1).2 = [1, 1, 0] ∧
    (tx_completions [fun _ => ⟨0, 0⟩, fun _ => ⟨0, 0⟩, fun _ => ⟨0, 0⟩]
      (usb_tx (machine_zero 8) 500 16 20 0 0).1).1.armed.length = 16 / 8 + 1 ∧
    (tx_completions [fun _ => ⟨0, 0⟩, fun _ => ⟨0, 0⟩, fun _ => ⟨0, 0⟩]
      (usb_tx (machine_zero 8) 500 16 20 0 0).1).1.armed.map (fun a => a.desc.bc) =
        [0, 0, 0] ∧
    ¬ ((tx_completions [fun _ => ⟨0, 0⟩, fun _ => ⟨0, 0⟩, fun _ => ⟨0, 0⟩]
      (usb_tx (machine_zero 8) 500 16 20 0 0).1).1.armed.map (fun a => a.desc.bc) =
        List.replicate (16 / 8) 8 ++ [0]) := by
  decide

/-- Descriptor count of a short transfer whose length is a multiple of the packet size.
For `M ≥ 1`, `L > 0` (a `size_t`) a multiple of `M` and `reqlen > L`, `usb_tx` followed by
`usb_tx_next` on each completion arms exactly `L/M + 1` descriptors before reporting
finished; the byte count stored in every one of them is `0`. -/
theorem tx_exact_multiple_short (m : Machine) (buf L reqlen cb cb_data : Nat)
    (hws : List (Nat → USB_BD_t)) (M : Nat)
    (hMeq : m.usb.ep0_state.tx.ep_maxsize = M) (hM : 1 ≤ M)
    (hL0 : 0 < L) (hmod : L % M = 0) (hreq : L < reqlen) (hL : L < SIZE_MOD)
    (hlen : L / M + 1 ≤ hws.length) :
    (tx_completions hws (usb_tx m buf L reqlen cb cb_data).1).2 =
      List.replicate (L / M) 1 ++ [0] ∧
    ∃ ds : List bd_handoff,
      (tx_completions hws (usb_tx m buf L reqlen cb cb_data).1).1.armed = m.armed ++ ds ∧
      ds.length = L / M + 1 ∧
      ds.map (fun a => a.desc.bc) = List.replicate (L / M + 1) 0 := by
  have hceil := ceil_of_dvd L M hM hmod
  have hc := ceil_pos L M hM hL0
  rw [hceil] at hc
  have hz : (if L = reqlen then 0 else 1) = 1 := by
    have : ¬ L = reqlen := by omega
    simp [this]
  obtain ⟨r1, r2, -⟩ := tx_transfer_closed m buf L reqlen cb cb_data hws M L
    (L / M - 1) 1 hMeq hM (by rw [Nat.min_eq_left (by omega)]) hL (by rw [hceil])
    hz.symm (by omega)
  have hk : L / M - 1 + 1 = L / M := by omega
  refine ⟨?_, _, r2, ?_, ?_⟩
  · rw [r1, hk]
  · rw [tx_chunks_length]; omega
  · rw [tx_chunks_bc, hk]

/-- Instance: 16 bytes, requested 20, maximum packet size 8. -/
theorem tx_exact_multiple_short_witness :
    (tx_completions [fun _ => ⟨0, 0⟩, fun _ => ⟨0, 0⟩, fun _ => ⟨0, 0⟩]
      (usb_tx (machine_zero 8) 500 16 20 7 9).1).2 = List.replicate (16 / 8) 1 ++ [0] ∧
    ∃ ds : List bd_handoff,
      (tx_completions [fun _ => ⟨0, 0⟩, fun _ => ⟨0, 0⟩, fun _ => ⟨0, 0⟩]
        (usb_tx (machine_zero 8) 500 16 20 7 9).1).1.armed = (machine_zero 8).armed ++ ds ∧
      ds.length = 16 / 8 + 1 ∧
      ds.map (fun a => a.desc.bc) = List.replicate (16 / 8 + 1) 0 :=
  tx_exact_multiple_short (machine_zero 8) 500 16 20 7 9
    [fun _ => ⟨0, 0⟩, fun _ => ⟨0, 0⟩, fun _ => ⟨0, 0⟩] 8 rfl (by decide) (by decide)
    (by decide) (by decide) (by decide) (by decide)

/-- C4 (code defect).  With maximum packet size 8, `usb_tx(buf, 0, 5, ..)` arms two empty
descriptors before `usb_tx_next` returns `0`, not one: the first empty packet already ends
the transfer, but `short_transfer` is set because the length differs from the requested
length and `usb_tx_next` queues a second one. -/
theorem tx_empty_send_fails :
    (tx_completions [fun _ => ⟨0, 0⟩, fun _ => ⟨0, 0⟩]
      (usb_tx (machine_zero 8) 500 0 5 0 0).1).2 = [1, 0] ∧
    (tx_completions [fun _ => ⟨0, 0⟩, fun _ => ⟨0, 0⟩]
      (usb_tx (machine_zero 8) 500 0 5 0 0).1).1.armed.map (fun a => a.desc.bc) = [0, 0] ∧
    ¬ ((tx_completions [fun _ => ⟨0, 0⟩, fun _ => ⟨0, 0⟩]
      (usb_tx (machine_zero 8) 500 0 5 0 0).1).1.armed.length = 1) := by
  decide

/-- Descriptor count of an empty send.  For `M ≥ 1`, `usb_tx(buf, 0, reqlen, ..)` followed
by `usb_tx_next` on each completion arms exactly one descriptor (byte count 0) when
`reqlen = 0`, and exactly two descriptors (both of byte count 0) when `reqlen > 0`, before
`usb_tx_next` reports finished. -/
theorem tx_empty_send (m : Machine) (buf reqlen cb cb_data : Nat)
    (hws : List (Nat → USB_BD_t)) (M : Nat)
    (hMeq : m.usb.ep0_state.tx.ep_maxsize = M) (hM : 1 ≤ M)
    (hlen : 2 ≤ hws.length) :
    (tx_completions hws (usb_tx m buf 0 reqlen cb cb_data).1).2 =
      List.replicate (if reqlen = 0 then 0 else 1) 1 ++ [0] ∧
    ∃ ds : List bd_handoff,
      (tx_completions hws (usb_tx m buf 0 reqlen cb cb_data).1).1.armed = m.armed ++ ds ∧
      ds.map (fun a => a.desc.bc) = List.replicate (if reqlen = 0 then 1 else 2) 0 := by
  have hz : (if 0 = reqlen then 0 else 1) = (if reqlen = 0 then 0 else 1) := by
    by_cases h : reqlen = 0
    · simp [h]
    · have h2 : ¬ 0 = reqlen := fun e => h e.symm
      simp [h, h2]
  have hq : (0 + M - 1) / M - 1 = 0 := by rw [ceil_zero M hM]
  obtain ⟨r1, r2, -⟩ := tx_transfer_closed m buf 0 reqlen cb cb_data hws M 0
    0 (if reqlen = 0 then 0 else 1) hMeq hM (by simp) (by decide) hq.symm hz.symm
    (by split <;> omega)
  refine ⟨?_, _, r2, ?_⟩
  · rw [r1, Nat.zero_add]
  · rw [tx_chunks_bc]
    congr 1
    split <;> rfl

/-- Instance: the status-stage call `usb_tx(NULL, 0, 0, NULL, NULL)`. -/
theorem tx_empty_send_witness :
    (tx_completions [fun _ => ⟨0, 0⟩, fun _ => ⟨0, 0⟩]
      (usb_tx (machine_zero 8) 0 0 0 0 0).1).2 =
      List.replicate (if 0 = 0 then 0 else 1) 1 ++ [0] ∧
    ∃ ds : List bd_handoff,
      (tx_completions [fun _ => ⟨0, 0⟩, fun _ => ⟨0, 0⟩]
        (usb_tx (machine_zero 8) 0 0 0 0 0).1).1.armed = (machine_zero 8).armed ++ ds ∧
      ds.map (fun a => a.desc.bc) = List.replicate (if 0 = 0 then 1 else 2) 0 :=
  tx_empty_send (machine_zero 8) 0 0 0 0 [fun _ => ⟨0, 0⟩, fun _ => ⟨0, 0⟩] 8 rfl
    (by decide) (by decide)

/-- C5 (code defect).  With maximum packet size 8, `usb_tx(buf, 20, 64, ..)` at `buf = 500`
arms four descriptors at `500, 508, 516, 520` (`usb_tx_next` returns `1, 1, 1, 0`): the
buffer is cut into chunks of 8, 8 and 4 bytes followed by an empty one.  The byte count
stored in each descriptor is `0`, though: the counts sum to `0`, not to `min(20, 64) = 20`,
and they are not `8, 8, 4, 0`.  The descriptor literal of `usb_tx_queue_next` names
`.bc = thislen`, and the word it yields holds `data01` and `own` only. -/
theorem tx_chunking_byte_counts :
    (tx_completions [fun _ => ⟨0, 0⟩, fun _ => ⟨0, 0⟩, fun _ => ⟨0, 0⟩, fun _ => ⟨0, 0⟩]
      (usb_tx (machine_zero 8) 500 20 64 0 0).1).2 = [1, 1, 1, 0] ∧
    (tx_completions [fun _ => ⟨0, 0⟩, fun _ => ⟨0, 0⟩, fun _ => ⟨0, 0⟩, fun _ => ⟨0, 0⟩]
      (usb_tx (machine_zero 8) 500 20 64 0 0).1).1.armed.map
        (fun a => (a.desc.addr, a.desc.bc)) = [(500, 0), (508, 0), (516, 0), (520, 0)] ∧
    ((tx_completions [fun _ => ⟨0, 0⟩, fun _ => ⟨0, 0⟩, fun _ => ⟨0, 0⟩, fun _ => ⟨0, 0⟩]
      (usb_tx (machine_zero 8) 500 20 64 0 0).1).1.armed.map (fun a => a.desc.bc)).sum = 0 ∧
    ¬ (((tx_completions [fun _ => ⟨0, 0⟩, fun _ => ⟨0, 0⟩, fun _ => ⟨0, 0⟩, fun _ => ⟨0, 0⟩]
      (usb_tx (machine_zero 8) 500 20 64 0 0).1).1.armed.map (fun a => a.desc.bc)).sum =
        min 20 64) ∧
    ¬ ((tx_completions [fun _ => ⟨0, 0⟩, fun _ => ⟨0, 0⟩, fun _ => ⟨0, 0⟩, fun _ => ⟨0, 0⟩]
      (usb_tx (machine_zero 8) 500 20 64 0 0).1).1.armed.map (fun a => a.desc.bc) =
        [8, 8, 4, 0]) := by
  decide

/-- How a TX transfer is cut up, for any `M ≥ 1`, `len` and `reqlen` (the effective length
`E = min len reqlen` being a `size_t`): `usb_tx` and the following `usb_tx_next` calls hand
off `ceil(E/M)` descriptors (one for `E = 0`), plus an empty one when `E ≠ reqlen`, before
`usb_tx_next` returns `0`; the `k`-th one points at `buf + min (k * M) E`; and the byte
count stored in every one of them is `0`. -/
theorem tx_chunking_layout (m : Machine) (buf len reqlen cb cb_data : Nat)
    (hws : List (Nat → USB_BD_t)) (M : Nat)
    (hMeq : m.usb.ep0_state.tx.ep_maxsize = M) (hM : 1 ≤ M)
    (hlt : min len reqlen < SIZE_MOD)
    (hlen : (min len reqlen + M - 1) / M + 2 ≤ hws.length) :
    ∃ (n : Nat) (ds : List bd_handoff),
      (tx_completions hws (usb_tx m buf len reqlen cb cb_data).1).2 =
        List.replicate n 1 ++ [0] ∧
      (tx_completions hws (usb_tx m buf len reqlen cb cb_data).1).1.armed = m.armed ++ ds ∧
      ds.length = n + 1 ∧
      n + 1 = ((min len reqlen + M - 1) / M - 1) + 1 +
        (if min len reqlen = reqlen then 0 else 1) ∧
      (∀ (k : Nat) (x : bd_handoff), ds[k]? = some x →
        x.desc.addr = ptr_add buf (min (k * M) (min len reqlen))) ∧
      ds.map (fun a => a.desc.bc) = List.replicate (n + 1) 0 := by
  have hfuel : (min len reqlen + M - 1) / M - 1 + 1 +
      (if min len reqlen = reqlen then 0 else 1) ≤ hws.length := by
    generalize (min len reqlen + M - 1) / M = c at *
    split <;> omega
  obtain ⟨r1, r2, -⟩ := tx_transfer_closed m buf len reqlen cb cb_data hws M (min len reqlen)
    ((min len reqlen + M - 1) / M - 1) (if min len reqlen = reqlen then 0 else 1) hMeq hM
    rfl hlt rfl rfl hfuel
  refine ⟨_, _, r1, r2, ?_, ?_, ?_, ?_⟩
  · rw [tx_chunks_length]; omega
  · omega
  · intro k x hk
    have := tx_chunks_addr M buf _ _ _ _ _ k x hk
    rw [this, Nat.zero_add]
  · rw [tx_chunks_bc]
    congr 1
    omega

/-- Instance: 20 bytes, requested 64, maximum packet size 8. -/
theorem tx_chunking_layout_witness :
    ∃ (n : Nat) (ds : List bd_handoff),
      (tx_completions [fun _ => ⟨0, 0⟩, fun _ => ⟨0, 0⟩, fun _ => ⟨0, 0⟩, fun _ => ⟨0, 0⟩,
          fun _ => ⟨0, 0⟩] (usb_tx (machine_zero 8) 500 20 64 7 9).1).2 =
        List.replicate n 1 ++ [0] ∧
      (tx_completions [fun _ => ⟨0, 0⟩, fun _ => ⟨0, 0⟩, fun _ => ⟨0, 0⟩, fun _ => ⟨0, 0⟩,
          fun _ => ⟨0, 0⟩] (usb_tx (machine_zero 8) 500 20 64 7 9).1).1.armed =
        (machine_zero 8).armed ++ ds ∧
      ds.length = n + 1 ∧
      n + 1 = ((min 20 64 + 8 - 1) / 8 - 1) + 1 + (if min 20 64 = 64 then 0 else 1) ∧
      (∀ (k : Nat) (x : bd_handoff), ds[k]? = some x →
        x.desc.addr = ptr_add 500 (min (k * 8) (min 20 64))) ∧
      ds.map (fun a => a.desc.bc) = List.replicate (n + 1) 0 :=
  tx_chunking_layout (machine_zero 8) 500 20 64 7 9
    [fun _ => ⟨0, 0⟩, fun _ => ⟨0, 0⟩, fun _ => ⟨0, 0⟩, fun _ => ⟨0, 0⟩, fun _ => ⟨0, 0⟩] 8 rfl
    (by decide) (by decide) (by decide)

/-! ## Data toggles -/

theorem usb_tx_next_toggle (m : Machine) :
    (usb_tx_next m).1.usb.ep0_state.tx.data01 = m.usb.ep0_state.tx.data01 ^^^ 1 ∧
    (usb_tx_next m).1.usb.ep0_state.rx = m.usb.ep0_state.rx := by
  unfold usb_tx_next
  simp only [tx_toggle, usb_tx_queue_next]
  split_ifs <;> simp

theorem usb_tx_next_cases (m : Machine) :
    ((usb_tx_next m).2 = 0 ∧ (usb_tx_next m).1.armed = m.armed) ∨
    ((usb_tx_next m).2 = 1 ∧ ∃ a : bd_handoff, (usb_tx_next m).1.armed = m.armed ++ [a] ∧
      a.desc.data01 = (m.usb.ep0_state.tx.data01 ^^^ 1) % 2) := by
  unfold usb_tx_next
  simp only [tx_toggle, usb_tx_queue_next]
  split_ifs <;> simp [bd_word_data01]

theorem usb_rx_next_toggle (m : Machine) :
    (usb_rx_next m).1.usb.ep0_state.rx.data01 = m.usb.ep0_state.rx.data01 ^^^ 1 ∧
    (usb_rx_next m).1.usb.ep0_state.tx = m.usb.ep0_state.tx := by
  unfold usb_rx_next
  simp only [usb_rx_queue_next]
  split_ifs <;> simp

theorem usb_rx_next_cases (m : Machine) :
    ((usb_rx_next m).2 = 0 ∧ (usb_rx_next m).1.armed = m.armed) ∨
    ((usb_rx_next m).2 = 1 ∧ ∃ a : bd_handoff, (usb_rx_next m).1.armed = m.armed ++ [a] ∧
      a.desc.data01 = (m.usb.ep0_state.rx.data01 ^^^ 1) % 2) := by
  unfold usb_rx_next
  simp only [usb_rx_queue_next]
  split_ifs <;> simp [bd_word_data01]

/-- The toggles carried by the descriptors a run of TX completions hands off. -/
theorem tx_completions_toggles (hws : List (Nat → USB_BD_t)) :
    ∀ m : Machine, ∃ ds : List bd_handoff,
      (tx_completions hws m).1.armed = m.armed ++ ds ∧
      ∀ (k : Nat) (x : bd_handoff), ds[k]? = some x →
        x.desc.data01 = (m.usb.ep0_state.tx.data01 ^^^ ((k + 1) % 2)) % 2 := by
  induction hws with
  | nil => intro m; exact ⟨[], by simp [tx_completions], by simp⟩
  | cons t rest ih =>
    intro m
    have htog := (usb_tx_next_toggle { m with usb := { m.usb with bdt := t } }).1
    simp only at htog
    rcases usb_tx_next_cases { m with usb := { m.usb with bdt := t } } with ⟨h0, ha⟩ | ⟨h1, a, ha, hd⟩
    · refine ⟨[], ?_, by simp⟩
      simp only [tx_completions, if_pos h0]
      simpa using ha
    · have hne : (usb_tx_next { m with usb := { m.usb with bdt := t } }).2 ≠ 0 := by
        rw [h1]; decide
      obtain ⟨ds, hds, hk⟩ := ih (usb_tx_next { m with usb := { m.usb with bdt := t } }).1
      refine ⟨a :: ds, ?_, ?_⟩
      · simp only [tx_completions, if_neg hne]
        rw [hds, ha]
        simp
      · intro k x hx
        cases k with
        | zero =>
          simp only [List.getElem?_cons_zero, Option.some.injEq] at hx
          subst hx
          simpa using hd
        | succ k =>
          simp only [List.getElem?_cons_succ] at hx
          rw [hk k x hx, htog, xor_parity_succ]

theorem rx_complete_rx (m : Machine) (d : USB_BD_t) :
    (rx_complete m d).usb.ep0_state = m.usb.ep0_state ∧ (rx_complete m d).armed = m.armed ∧
    (rx_complete m d).calls = m.calls := ⟨rfl, rfl, rfl⟩

/-- The toggles carried by the descriptors a run of RX completions hands off. -/
theorem rx_completions_toggles (evs : List USB_BD_t) :
    ∀ m : Machine, ∃ ds : List bd_handoff,
      (rx_completions evs m).1.armed = m.armed ++ ds ∧
      ∀ (k : Nat) (x : bd_handoff), ds[k]? = some x →
        x.desc.data01 = (m.usb.ep0_state.rx.data01 ^^^ ((k + 1) % 2)) % 2 := by
  induction evs with
  | nil => intro m; exact ⟨[], by simp [rx_completions], by simp⟩
  | cons d rest ih =>
    intro m
    have htog := (usb_rx_next_toggle (rx_complete m d)).1
    rw [(rx_complete_rx m d).1] at htog
    rcases usb_rx_next_cases (rx_complete m d) with ⟨h0, ha⟩ | ⟨h1, a, ha, hd⟩
    · refine ⟨[], ?_, by simp⟩
      simp only [rx_completions, if_pos h0]
      rw [ha, (rx_complete_rx m d).2.1]
      simp
    · have hne : (usb_rx_next (rx_complete m d)).2 ≠ 0 := by
        rw [h1]; decide
      obtain ⟨ds, hds, hk⟩ := ih (usb_rx_next (rx_complete m d)).1
      rw [(rx_complete_rx m d).1] at hd
      rw [(rx_complete_rx m d).2.1] at ha
      refine ⟨a :: ds, ?_, ?_⟩
      · simp only [rx_completions, if_neg hne]
        rw [hds, ha]
        simp
      · intro k x hx
        cases k with
        | zero =>
          simp only [List.getElem?_cons_zero, Option.some.injEq] at hx
          subst hx
          simpa using hd
        | succ k =>
          simp only [List.getElem?_cons_succ] at hx
          rw [hk k x hx, htog, xor_parity_succ]

theorem usb_tx_first (m : Machine) (buf len reqlen cb cb_data : Nat) :
    (usb_tx m buf len reqlen cb cb_data).1.usb.ep0_state.tx.data01 = m.usb.ep0_state.tx.data01 ∧
    ∃ a : bd_handoff, (usb_tx m buf len reqlen cb cb_data).1.armed = m.armed ++ [a] ∧
      a.desc.data01 = m.usb.ep0_state.tx.data01 % 2 := by
  simp [usb_tx, usb_tx_queue_next, bd_word_data01]

theorem usb_rx_first (m : Machine) (buf len cb cb_data : Nat) :
    (usb_rx m buf len cb cb_data).1.usb.ep0_state.rx.data01 = m.usb.ep0_state.rx.data01 ∧
    ∃ a : bd_handoff, (usb_rx m buf len cb cb_data).1.armed = m.armed ++ [a] ∧
      a.desc.data01 = m.usb.ep0_state.rx.data01 % 2 := by
  simp [usb_rx, usb_rx_queue_next, bd_word_data01]

theorem toggle_index {t0 : Nat} (h : t0 ≤ 1) (k : Nat) :
    (t0 ^^^ (k % 2)) % 2 = t0 ^^^ (k % 2) :=
  Nat.mod_eq_of_lt (Nat.lt_succ_of_le (xor_parity_le_one h k))

/-- C6.  Toggle alternation within a transfer.  A TX transfer started by `usb_tx` while the
TX toggle is `t0` hands off descriptors whose `data01` is `t0 xor (k mod 2)` for the `k`-th
one; the same holds for an RX transfer started by `usb_rx` and advanced by `usb_rx_next`;
each call of `usb_tx_next` or `usb_rx_next` flips the toggle of its own pipe once and
leaves the other pipe alone; `usb_setup_control` sets the RX toggle to DATA0 and the TX
toggle to DATA1 and arms the RX descriptor with DATA0. -/
theorem toggle_alternation (m : Machine) (buf len reqlen cb cb_data : Nat)
    (hws : List (Nat → USB_BD_t)) (evs : List USB_BD_t)
    (ht : m.usb.ep0_state.tx.data01 ≤ 1) (hr : m.usb.ep0_state.rx.data01 ≤ 1) :
    (∃ ds : List bd_handoff,
      (tx_completions hws (usb_tx m buf len reqlen cb cb_data).1).1.armed = m.armed ++ ds ∧
      ∀ (k : Nat) (x : bd_handoff), ds[k]? = some x →
        x.desc.data01 = m.usb.ep0_state.tx.data01 ^^^ (k % 2)) ∧
    (∃ ds : List bd_handoff,
      (rx_completions evs (usb_rx m buf len cb cb_data).1).1.armed = m.armed ++ ds ∧
      ∀ (k : Nat) (x : bd_handoff), ds[k]? = some x →
        x.desc.data01 = m.usb.ep0_state.rx.data01 ^^^ (k % 2)) ∧
    ((usb_tx_next m).1.usb.ep0_state.tx.data01 = m.usb.ep0_state.tx.data01 ^^^ 1 ∧
      (usb_tx_next m).1.usb.ep0_state.rx.data01 = m.usb.ep0_state.rx.data01) ∧
    ((usb_rx_next m).1.usb.ep0_state.rx.data01 = m.usb.ep0_state.rx.data01 ^^^ 1 ∧
      (usb_rx_next m).1.usb.ep0_state.tx.data01 = m.usb.ep0_state.tx.data01) ∧
    ((usb_setup_control m).usb.ep0_state.rx.data01 = USB_DATA01_DATA0 ∧
      (usb_setup_control m).usb.ep0_state.tx.data01 = USB_DATA01_DATA1 ∧
      ∃ a : bd_handoff, (usb_setup_control m).armed = m.armed ++ [a] ∧
        a.idx = usb_get_bd 0 USB_EP_RX m.usb.ep0_state.rx.pingpong ∧
        a.desc.data01 = USB_DATA01_DATA0) := by
  refine ⟨?_, ?_, ?_, ?_, ?_⟩
  · obtain ⟨hd, a, ha, had⟩ := usb_tx_first m buf len reqlen cb cb_data
    obtain ⟨ds, hds, hk⟩ := tx_completions_toggles hws (usb_tx m buf len reqlen cb cb_data).1
    refine ⟨a :: ds, ?_, ?_⟩
    · rw [hds, ha]; simp
    · intro k x hx
      cases k with
      | zero =>
        simp only [List.getElem?_cons_zero, Option.some.injEq] at hx
        subst hx
        rw [had, Nat.zero_mod, Nat.xor_zero]
        exact Nat.mod_eq_of_lt (by omega)
      | succ k =>
        simp only [List.getElem?_cons_succ] at hx
        rw [hk k x hx, hd]
        exact toggle_index ht (k + 1)
  · obtain ⟨hd, a, ha, had⟩ := usb_rx_first m buf len cb cb_data
    obtain ⟨ds, hds, hk⟩ := rx_completions_toggles evs (usb_rx m buf len cb cb_data).1
    refine ⟨a :: ds, ?_, ?_⟩
    · rw [hds, ha]; simp
    · intro k x hx
      cases k with
      | zero =>
        simp only [List.getElem?_cons_zero, Option.some.injEq] at hx
        subst hx
        rw [had, Nat.zero_mod, Nat.xor_zero]
        exact Nat.mod_eq_of_lt (by omega)
      | succ k =>
        simp only [List.getElem?_cons_succ] at hx
        rw [hk k x hx, hd]
        exact toggle_index hr (k + 1)
  · obtain ⟨h1, h2⟩ := usb_tx_next_toggle m
    exact ⟨h1, by rw [h2]⟩
  · obtain ⟨h1, h2⟩ := usb_rx_next_toggle m
    exact ⟨h1, by rw [h2]⟩
  · simp [usb_setup_control, usb_rx, usb_rx_queue_next, bd_word_data01, USB_DATA01_DATA0,
      USB_DATA01_DATA1]

/-- Instance of C6 on the zero-initialised machine with maximum packet size 8. -/
theorem toggle_alternation_witness :
    (machine_zero 8).usb.ep0_state.tx.data01 ≤ 1 ∧ (machine_zero 8).usb.ep0_state.rx.data01 ≤ 1 ∧
    (∃ ds : List bd_handoff,
      (tx_completions [fun _ => ⟨0, 0⟩, fun _ => ⟨0, 0⟩, fun _ => ⟨0, 0⟩]
        (usb_tx (machine_zero 8) 500 20 20 7 9).1).1.armed = (machine_zero 8).armed ++ ds ∧
      ∀ (k : Nat) (x : bd_handoff), ds[k]? = some x →
        x.desc.data01 = (machine_zero 8).usb.ep0_state.tx.data01 ^^^ (k % 2)) :=
  ⟨by decide, by decide,
    (toggle_alternation (machine_zero 8) 500 20 20 7 9
      [fun _ => ⟨0, 0⟩, fun _ => ⟨0, 0⟩, fun _ => ⟨0, 0⟩] [⟨524288, 0⟩, ⟨524288, 0⟩, ⟨262144, 0⟩]
      (by decide) (by decide)).1⟩

/-! ## RX engine: the transfer in flight -/

theorem usb_get_bd_rx (pp : Nat) : usb_get_bd 0 USB_EP_RX pp = pp := by
  simp [usb_get_bd, USB_EP_RX]

theorem rx_thislen_le (m : Machine) : rx_thislen m ≤ m.usb.ep0_state.rx.transfer_size :=
  thislen_le _ _

theorem usb_rx_inv (m : Machine) (buf L cb ctx : Nat) :
    rx_inv buf L cb ctx m.usb.ep0_state.rx.ep_maxsize m.calls 0 (usb_rx m buf L cb ctx).1 := by
  simp [rx_inv, usb_rx, usb_rx_queue_next, bd_word_bc]

/-- One completion inside an RX transfer: what `usb_rx_next` computes. -/
theorem usb_rx_next_step (buf L cb ctx M : Nat) (calls0 : List callback_call) (total : Nat)
    (m : Machine) (d : USB_BD_t) (hL : L < SIZE_MOD)
    (hinv : rx_inv buf L cb ctx M calls0 total m)
    (hd : d.bc ≤ rx_thislen m) :
    ((usb_rx_next (rx_complete m d)).2 = 0 ↔ (d.bc < M ∨ total + d.bc = L)) ∧
    ((usb_rx_next (rx_complete m d)).2 = 0 →
      (usb_rx_next (rx_complete m d)).1.armed = m.armed ∧
      (usb_rx_next (rx_complete m d)).1.calls = calls0 ++
        (if cb ≠ 0 then [{ fn := cb, buf := buf, len := total + d.bc, data := ctx }] else [])) ∧
    ((usb_rx_next (rx_complete m d)).2 ≠ 0 →
      (usb_rx_next (rx_complete m d)).2 = 1 ∧
      rx_inv buf L cb ctx M calls0 (total + d.bc) (usb_rx_next (rx_complete m d)).1 ∧
      (usb_rx_next (rx_complete m d)).1.armed = m.armed ++
        [{ idx := usb_get_bd 0 USB_EP_RX (m.usb.ep0_state.rx.pingpong ^^^ 1),
           desc := { bd := bd_word (min (L - (total + d.bc)) M)
                      (m.usb.ep0_state.rx.data01 ^^^ 1),
                     addr := ptr_add buf (total + d.bc) } }] ∧
      total + d.bc < L) := by
  obtain ⟨h1, h2, h3, h4, h5, h6, h7, -⟩ := hinv
  subst h1 h2 h3 h4 h5 h7
  have hdts : d.bc ≤ m.usb.ep0_state.rx.transfer_size := Nat.le_trans hd (rx_thislen_le m)
  have hread : ((rx_complete m d).usb.bdt
      (usb_get_bd 0 USB_EP_RX (rx_complete m d).usb.ep0_state.rx.pingpong)).bc = d.bc := by
    simp [rx_complete]
  have hsub : size_sub m.usb.ep0_state.rx.transfer_size d.bc =
      m.usb.ep0_state.rx.transfer_size - d.bc := size_sub_of_le hdts (by omega)
  have hadd : size_add m.usb.ep0_state.rx.pos d.bc = m.usb.ep0_state.rx.pos + d.bc :=
    size_add_of_lt (by omega)
  by_cases hfin : d.bc < m.usb.ep0_state.rx.ep_maxsize ∨
      m.usb.ep0_state.rx.transfer_size - d.bc = 0
  · have hfin2 : d.bc < m.usb.ep0_state.rx.ep_maxsize ∨ m.usb.ep0_state.rx.pos + d.bc = L := by
      rcases hfin with h | h
      · exact Or.inl h
      · exact Or.inr (by omega)
    by_cases hcb : m.usb.ep0_state.rx.callback = 0
    · simp [usb_rx_next, hread, hsub, hadd, hfin, hfin2, hcb, rx_complete]
    · simp [usb_rx_next, hread, hsub, hadd, hfin, hfin2, hcb, rx_complete]
  · have hfin2 : ¬ (d.bc < m.usb.ep0_state.rx.ep_maxsize ∨
        m.usb.ep0_state.rx.pos + d.bc = L) := by
      intro h
      apply hfin
      rcases h with h | h
      · exact Or.inl h
      · exact Or.inr (by omega)
    have hmin2 : (if m.usb.ep0_state.rx.transfer_size - d.bc > m.usb.ep0_state.rx.ep_maxsize
        then m.usb.ep0_state.rx.ep_maxsize else m.usb.ep0_state.rx.transfer_size - d.bc) =
        min (L - (m.usb.ep0_state.rx.pos + d.bc)) m.usb.ep0_state.rx.ep_maxsize := by
      split <;> omega
    simp [usb_rx_next, hread, hsub, hadd, hfin, hfin2, rx_complete, usb_rx_queue_next, rx_inv,
      hmin2, bd_word_bc]
    omega

/-- The invariant holds along an RX transfer in flight, with `total` advanced by the byte
counts of the completed descriptors; nothing is reported to the callback on the way. -/
theorem rx_in_flight_inv (buf L cb ctx M : Nat) (calls0 : List callback_call) (hL : L < SIZE_MOD)
    (ds : List USB_BD_t) :
    ∀ (total : Nat) (m mk : Machine), rx_inv buf L cb ctx M calls0 total m →
      rx_in_flight ds m = some mk →
      rx_inv buf L cb ctx M calls0 (total + (ds.map USB_BD_t.bc).sum) mk := by
  induction ds with
  | nil =>
    intro total m mk hinv h
    simp only [rx_in_flight, Option.some.injEq] at h
    subst h
    simpa using hinv
  | cons d rest ih =>
    intro total m mk hinv h
    simp only [rx_in_flight] at h
    split_ifs at h with h1 h2
    have hstep := (usb_rx_next_step buf L cb ctx M calls0 total m d hL hinv h1).2.2
      (by rw [h2]; decide)
    have := ih (total + d.bc) _ mk hstep.2.1 h
    simpa [Nat.add_assoc] using this

/-- What holds of the RX advance.  In an RX transfer started by `usb_rx(buf, L, cb, ctx)`
on a pipe with maximum packet size `M`, after completions `ds` that each reported at most
the chunk length and for which `usb_rx_next` asked for more, let the next completed
descriptor `d` again report at most the chunk length.  Then `usb_rx_next` returns `0`
exactly when `d.bc < M` or the bytes received so far total `L`; when it returns `0` it arms
nothing and the only callback invocation of the whole transfer is `cb(buf, total, ctx)`
(none when `cb` is `NULL`); otherwise it returns `1`, invokes no callback and arms one
descriptor at `buf + total` on the other ping-pong slot, whose byte count is `0`. -/
theorem usb_rx_next_rule (m : Machine) (buf L cb ctx : Nat) (ds : List USB_BD_t)
    (d : USB_BD_t) (mk : Machine) (M : Nat)
    (hMeq : m.usb.ep0_state.rx.ep_maxsize = M) (hL : L < SIZE_MOD)
    (hreach : rx_in_flight ds (usb_rx m buf L cb ctx).1 = some mk)
    (hd : d.bc ≤ rx_thislen mk) :
    ((usb_rx_next (rx_complete mk d)).2 = 0 ↔
      (d.bc < M ∨ (ds.map USB_BD_t.bc).sum + d.bc = L)) ∧
    ((usb_rx_next (rx_complete mk d)).2 = 0 →
      (usb_rx_next (rx_complete mk d)).1.armed = mk.armed ∧
      (usb_rx_next (rx_complete mk d)).1.calls = m.calls ++
        (if cb ≠ 0 then
          [{ fn := cb, buf := buf, len := (ds.map USB_BD_t.bc).sum + d.bc, data := ctx }]
        else [])) ∧
    ((usb_rx_next (rx_complete mk d)).2 ≠ 0 →
      (usb_rx_next (rx_complete mk d)).2 = 1 ∧
      (usb_rx_next (rx_complete mk d)).1.calls = m.calls ∧
      ∃ a : bd_handoff,
        (usb_rx_next (rx_complete mk d)).1.armed = mk.armed ++ [a] ∧
        a.desc.bc = 0 ∧
        a.desc.addr = ptr_add buf ((ds.map USB_BD_t.bc).sum + d.bc) ∧
        a.idx = usb_get_bd 0 USB_EP_RX (mk.usb.ep0_state.rx.pingpong ^^^ 1) ∧
        a.idx ≠ usb_get_bd 0 USB_EP_RX mk.usb.ep0_state.rx.pingpong) := by
  have h0 := usb_rx_inv m buf L cb ctx
  rw [hMeq] at h0
  have hk := rx_in_flight_inv buf L cb ctx M m.calls hL ds 0 _ mk h0 hreach
  rw [Nat.zero_add] at hk
  obtain ⟨s1, s2, s3⟩ := usb_rx_next_step buf L cb ctx M m.calls _ mk d hL hk hd
  refine ⟨s1, s2, ?_⟩
  intro hne
  obtain ⟨t1, t2, t3, -⟩ := s3 hne
  refine ⟨t1, t2.2.2.2.2.2.2.1, _, t3, ?_, rfl, rfl, ?_⟩
  · rw [bd_word_bc]
  · simp only [usb_get_bd_rx]
    exact xor_one_ne _

/-- Instance of the RX advance: a 20-byte receive with maximum packet size 8, second
completion. -/
theorem usb_rx_next_rule_witness :
    ((usb_rx_next (rx_complete
        (usb_rx_next (rx_complete (usb_rx (machine_zero 8) 500 20 7 9).1 ⟨524288, 0⟩)).1
        ⟨524288, 0⟩)).2 = 0 ↔
      ((⟨524288, 0⟩ : USB_BD_t).bc < 8 ∨
        (([⟨524288, 0⟩] : List USB_BD_t).map USB_BD_t.bc).sum + (⟨524288, 0⟩ : USB_BD_t).bc =
          20)) :=
  (usb_rx_next_rule (machine_zero 8) 500 20 7 9 [⟨524288, 0⟩] ⟨524288, 0⟩
    (usb_rx_next (rx_complete (usb_rx (machine_zero 8) 500 20 7 9).1 ⟨524288, 0⟩)).1 8
    rfl (by decide) rfl (by decide)).1

/-! ## Control transfers: SETUP handling and the status stage -/

theorem and_7f_lt (v : Nat) : v &&& 0x7f < 128 :=
  Nat.lt_succ_of_le Nat.and_le_right

/-- An IN completion that ends the status stage of a SET_ADDRESS transfer commits the
pending address. -/
theorem status_in_commit (m : Machine) (stat : Nat)
    (htok : (m.usb.bdt (bd_index_stat stat)).tok_pid = USB_PID_IN)
    (h0 : m.usb.ep0_state.tx.transfer_size = 0) (hs : m.usb.ep0_state.tx.short_transfer = 0)
    (hc : m.usb.ctrl_state = USBD_CTRL_STATE_STATUS)
    (hst : m.usb.state = USBD_STATE_SETTING_ADDRESS) :
    (usb_handle_control_ep m stat).USB0_ADDR.addr = m.usb.address % 128 ∧
    (usb_handle_control_ep m stat).usb.state = USBD_STATE_ADDRESS := by
  have hne : ¬ USB_PID_IN = USB_PID_SETUP := by decide
  by_cases hcb : m.usb.ep0_state.tx.callback = 0
  · simp [usb_handle_control_ep, htok, hne, usb_tx_next, tx_toggle, h0, hs, hcb, status_or_done,
      hc, hst, usb_setup_control, usb_rx, usb_rx_queue_next]
  · simp [usb_handle_control_ep, htok, hne, usb_tx_next, tx_toggle, h0, hs, hcb, status_or_done,
      hc, hst, usb_setup_control, usb_rx, usb_rx_queue_next]

/-- C8.  Address-commit ordering.  Handling a SETUP event whose request decodes to a
standard SET_ADDRESS with value `v` leaves `USB0_ADDR` untouched, stores `v & 0x7f` as the
pending address and moves the device to `SettingAddress`; whatever the controller then
writes to the descriptors and to data memory, handling the next event, an IN completion,
sets `USB0_ADDR.addr` to `v & 0x7f` and the device state to `Address`. -/
theorem set_address_commit (m : Machine) (stat v : Nat) (bdt2 : Nat → USB_BD_t)
    (mem2 : Nat → Nat) (stat2 : Nat)
    (htok : (m.usb.bdt (bd_index_stat stat)).tok_pid = USB_PID_SETUP)
    (hty : (setup_req m stat).type = USB_CTRL_REQ_STD)
    (hrq : (setup_req m stat).request = USB_CTRL_REQ_SET_ADDRESS)
    (hv : (setup_req m stat).value = v)
    (htok2 : (bdt2 (bd_index_stat stat2)).tok_pid = USB_PID_IN) :
    (usb_handle_control_ep m stat).USB0_ADDR = m.USB0_ADDR ∧
    (usb_handle_control_ep m stat).usb.address = v &&& 0x7f ∧
    (usb_handle_control_ep m stat).usb.state = USBD_STATE_SETTING_ADDRESS ∧
    (usb_handle_control_ep
      { usb_handle_control_ep m stat with
        usb := { (usb_handle_control_ep m stat).usb with bdt := bdt2 },
        mem := mem2 } stat2).USB0_ADDR.addr = v &&& 0x7f ∧
    (usb_handle_control_ep
      { usb_handle_control_ep m stat with
        usb := { (usb_handle_control_ep m stat).usb with bdt := bdt2 },
        mem := mem2 } stat2).usb.state = USBD_STATE_ADDRESS := by
  have hreq : usb_ctrl_req_at (usb_clear_transfers m).mem
      ((usb_clear_transfers m).usb.bdt (bd_index_stat stat)).addr = setup_req m stat := rfl
  have hz : size_sub 0 0 = 0 := by decide
  have hz2 : size_add 0 0 = 0 := by decide
  have hmod : (v &&& 0x7f) % 128 = v &&& 0x7f := Nat.mod_eq_of_lt (and_7f_lt v)
  have hs : usb_handle_control_ep m stat =
      { (usb_tx { usb_clear_transfers m with usb := { (usb_clear_transfers m).usb with
            address := v &&& 0x7f,
            state := USBD_STATE_SETTING_ADDRESS,
            ctrl_state := USBD_CTRL_STATE_STATUS } } 0 0 0 0 0).1 with
        USB0_CTL := clear_txd_suspend m.USB0_CTL } := by
    simp only [usb_handle_control_ep, htok, if_true, handle_setup, hreq, usb_handle_control, hty,
      hrq, hv]
    simp [USB_CTRL_REQ_STD, USB_CTRL_REQ_SET_ADDRESS, USB_CTRL_REQ_GET_STATUS,
      USB_CTRL_REQ_CLEAR_FEATURE, USB_CTRL_REQ_SET_FEATURE, usb_tx, usb_tx_queue_next,
      usb_clear_transfers]
  rw [hs]
  refine ⟨?_, ?_, ?_, ?_⟩
  · simp [usb_tx, usb_tx_queue_next, usb_clear_transfers]
  · simp [usb_tx, usb_tx_queue_next, usb_clear_transfers]
  · simp [usb_tx, usb_tx_queue_next, usb_clear_transfers]
  · have h := status_in_commit
      { ({ (usb_tx { usb_clear_transfers m with usb := { (usb_clear_transfers m).usb with
            address := v &&& 0x7f,
            state := USBD_STATE_SETTING_ADDRESS,
            ctrl_state := USBD_CTRL_STATE_STATUS } } 0 0 0 0 0).1 with
          USB0_CTL := clear_txd_suspend m.USB0_CTL } : Machine) with
        usb := { ({ (usb_tx { usb_clear_transfers m with usb := { (usb_clear_transfers m).usb with
            address := v &&& 0x7f,
            state := USBD_STATE_SETTING_ADDRESS,
            ctrl_state := USBD_CTRL_STATE_STATUS } } 0 0 0 0 0).1 with
          USB0_CTL := clear_txd_suspend m.USB0_CTL } : Machine).usb with bdt := bdt2 },
        mem := mem2 } stat2 htok2
      (by simp [usb_tx, usb_tx_queue_next, hz])
      (by simp [usb_tx, usb_tx_queue_next])
      (by simp [usb_tx, usb_tx_queue_next])
      (by simp [usb_tx, usb_tx_queue_next])
    refine ⟨?_, h.2⟩
    rw [h.1]
    simp [usb_tx, usb_tx_queue_next, hmod]

/-- Instance of C8: SET_ADDRESS with value 42, then the IN completion of its status stage. -/
theorem set_address_commit_witness :
    (usb_handle_control_ep (machine_setup 8 [0, 5, 42, 0, 0, 0, 0, 0]) 0).USB0_ADDR =
      (machine_setup 8 [0, 5, 42, 0, 0, 0, 0, 0]).USB0_ADDR ∧
    (usb_handle_control_ep (machine_setup 8 [0, 5, 42, 0, 0, 0, 0, 0]) 0).usb.address =
      42 &&& 0x7f ∧
    (usb_handle_control_ep (machine_setup 8 [0, 5, 42, 0, 0, 0, 0, 0]) 0).usb.state =
      USBD_STATE_SETTING_ADDRESS ∧
    (usb_handle_control_ep
      { usb_handle_control_ep (machine_setup 8 [0, 5, 42, 0, 0, 0, 0, 0]) 0 with
        usb := { (usb_handle_control_ep (machine_setup 8 [0, 5, 42, 0, 0, 0, 0, 0]) 0).usb with
          bdt := fun _ => ⟨USB_PID_IN * 4, 0⟩ },
        mem := fun _ => 0 } 8).USB0_ADDR.addr = 42 &&& 0x7f ∧
    (usb_handle_control_ep
      { usb_handle_control_ep (machine_setup 8 [0, 5, 42, 0, 0, 0, 0, 0]) 0 with
        usb := { (usb_handle_control_ep (machine_setup 8 [0, 5, 42, 0, 0, 0, 0, 0]) 0).usb with
          bdt := fun _ => ⟨USB_PID_IN * 4, 0⟩ },
        mem := fun _ => 0 } 8).usb.state = USBD_STATE_ADDRESS :=
  set_address_commit (machine_setup 8 [0, 5, 42, 0, 0, 0, 0, 0]) 0 42
    (fun _ => ⟨USB_PID_IN * 4, 0⟩) (fun _ => 0) 8 (by decide) (by decide) (by decide)
    (by decide) (by decide)

/-- C9 (code defect).  SET_CONFIGURATION with value 255 followed by GET_CONFIGURATION, on
the zero-initialised driver with maximum packet size 8.  The reply byte `255` is copied to
the scratch buffer of the TX slot (address 4096) and one TX descriptor pointing at it is
armed with `own = 1`, but the byte count stored in it is `0`, not `1`: the descriptor
literal of `usb_tx_queue_next` names `.bc = thislen`, and the word it yields holds `data01`
and `own` only. -/
theorem get_configuration_byte_count :
    (usb_handle_control (machine_zero 8) ⟨0, 0, 0, 9, 255, 0, 0⟩).1.armed = [] ∧
    (usb_handle_control (usb_handle_control (machine_zero 8) ⟨0, 0, 0, 9, 255, 0, 0⟩).1
      ⟨0, 0, 1, 8, 0, 0, 1⟩).1.armed.map (fun a => (a.idx, a.desc.addr, a.desc.own, a.desc.bc)) =
      [(usb_get_bd 0 USB_EP_TX 0, 4096, 1, 0)] ∧
    read8 (usb_handle_control (usb_handle_control (machine_zero 8) ⟨0, 0, 0, 9, 255, 0, 0⟩).1
      ⟨0, 0, 1, 8, 0, 0, 1⟩).1.mem 4096 = 255 ∧
    ¬ ((usb_handle_control (usb_handle_control (machine_zero 8) ⟨0, 0, 0, 9, 255, 0, 0⟩).1
      ⟨0, 0, 1, 8, 0, 0, 1⟩).1.armed.map (fun a => a.desc.bc) = [1]) := by
  decide

/-- What holds of the configuration round trip, for every value `v ≤ 255` and every maximum
packet size `M ≥ 1`: after a standard SET_CONFIGURATION with value `v`, a standard
GET_CONFIGURATION copies `v` to the first byte of the scratch buffer of the current TX slot,
starts a one-byte transfer of that buffer (`pos = 1`, nothing left) and arms one TX
descriptor (slot `tx.pingpong`, `own = 1`) pointing at it, whose byte count is `0`. -/
theorem configuration_round_trip (m : Machine) (set_req get_req : usb_ctrl_req_t) (v : Nat)
    (hM : 1 ≤ m.usb.ep0_state.tx.ep_maxsize) (hv : v ≤ 255)
    (hs1 : set_req.type = USB_CTRL_REQ_STD)
    (hs2 : set_req.request = USB_CTRL_REQ_SET_CONFIGURATION)
    (hs3 : set_req.value = v)
    (hg1 : get_req.type = USB_CTRL_REQ_STD)
    (hg2 : get_req.request = USB_CTRL_REQ_GET_CONFIGURATION) :
    (usb_handle_control m set_req).1.armed = m.armed ∧
    read8 (usb_handle_control (usb_handle_control m set_req).1 get_req).1.mem
      (ep0_buf_row m.usb m.usb.ep0_state.tx.pingpong) = v ∧
    (usb_handle_control (usb_handle_control m set_req).1 get_req).1.usb.ep0_state.tx.pos = 1 ∧
    (usb_handle_control (usb_handle_control m set_req).1
      get_req).1.usb.ep0_state.tx.transfer_size = 0 ∧
    ∃ a : bd_handoff,
      (usb_handle_control (usb_handle_control m set_req).1 get_req).1.armed = m.armed ++ [a] ∧
      a.idx = usb_get_bd 0 USB_EP_TX m.usb.ep0_state.tx.pingpong ∧
      a.desc.addr = ptr_add (ep0_buf_row m.usb m.usb.ep0_state.tx.pingpong) 0 ∧
      a.desc.own = 1 ∧
      a.desc.bc = 0 := by
  have h1 : ¬ (1 > m.usb.ep0_state.tx.ep_maxsize) := by omega
  have hv2 : v % 256 = v := Nat.mod_eq_of_lt (by omega)
  have ha : size_add 0 1 = 1 := by decide
  have hb : size_sub 1 1 = 0 := by decide
  have hset : (usb_handle_control m set_req).1 =
      { m with usb := { m.usb with config := v, state := USBD_STATE_CONFIGURED } } := by
    simp [usb_handle_control, hs1, hs2, hs3, USB_CTRL_REQ_STD, USB_CTRL_REQ_SET_CONFIGURATION,
      USB_CTRL_REQ_GET_STATUS, USB_CTRL_REQ_CLEAR_FEATURE, USB_CTRL_REQ_SET_FEATURE,
      USB_CTRL_REQ_SET_ADDRESS, USB_CTRL_REQ_GET_DESCRIPTOR, USB_CTRL_REQ_GET_CONFIGURATION]
  rw [hset]
  refine ⟨rfl, ?_⟩
  simp [usb_handle_control, hg1, hg2, USB_CTRL_REQ_STD, USB_CTRL_REQ_SET_CONFIGURATION,
      USB_CTRL_REQ_GET_STATUS, USB_CTRL_REQ_CLEAR_FEATURE, USB_CTRL_REQ_SET_FEATURE,
      USB_CTRL_REQ_SET_ADDRESS, USB_CTRL_REQ_GET_DESCRIPTOR, USB_CTRL_REQ_GET_CONFIGURATION,
      usb_tx_cp, EP0_BUFSIZE, usb_tx, usb_tx_queue_next, h1, bd_word_bc, bd_word_own, read8,
      memcpy, int_bytes, hv2, ha, hb, ep0_buf_row]

/-- Instance: SET_CONFIGURATION 255 followed by GET_CONFIGURATION. -/
theorem configuration_round_trip_witness :
    read8 (usb_handle_control (usb_handle_control (machine_zero 8) ⟨0, 0, 0, 9, 255, 0, 0⟩).1
      ⟨0, 0, 1, 8, 0, 0, 1⟩).1.mem
      (ep0_buf_row (machine_zero 8).usb (machine_zero 8).usb.ep0_state.tx.pingpong) = 255 :=
  (configuration_round_trip (machine_zero 8) ⟨0, 0, 0, 9, 255, 0, 0⟩ ⟨0, 0, 1, 8, 0, 0, 1⟩ 255
    (by decide) (by decide) rfl rfl rfl rfl rfl).2.1

/-- The requests `usb_handle_control` rejects: a type other than standard, SET_INTERFACE,
or a request code its `switch` has no `case` for. -/
theorem usb_handle_control_reject (m : Machine) (req : usb_ctrl_req_t)
    (hrej : req.type ≠ USB_CTRL_REQ_STD ∨ req.request = USB_CTRL_REQ_SET_INTERFACE ∨
      req.request ∉ [USB_CTRL_REQ_GET_STATUS, USB_CTRL_REQ_CLEAR_FEATURE,
        USB_CTRL_REQ_SET_FEATURE, USB_CTRL_REQ_SET_ADDRESS, USB_CTRL_REQ_GET_DESCRIPTOR,
        USB_CTRL_REQ_GET_CONFIGURATION, USB_CTRL_REQ_SET_CONFIGURATION,
        USB_CTRL_REQ_GET_INTERFACE, USB_CTRL_REQ_SET_INTERFACE]) :
    usb_handle_control m req = (m, -1) := by
  unfold usb_handle_control
  rcases hrej with h | h | h
  · rw [if_pos h]
  · by_cases ht : req.type ≠ USB_CTRL_REQ_STD
    · rw [if_pos ht]
    · rw [if_neg ht]
      simp [h, USB_CTRL_REQ_SET_INTERFACE, USB_CTRL_REQ_GET_STATUS, USB_CTRL_REQ_CLEAR_FEATURE,
        USB_CTRL_REQ_SET_FEATURE, USB_CTRL_REQ_SET_ADDRESS, USB_CTRL_REQ_GET_DESCRIPTOR,
        USB_CTRL_REQ_GET_CONFIGURATION, USB_CTRL_REQ_SET_CONFIGURATION,
        USB_CTRL_REQ_GET_INTERFACE]
  · by_cases ht : req.type ≠ USB_CTRL_REQ_STD
    · rw [if_pos ht]
    · rw [if_neg ht]
      simp only [List.mem_cons, List.mem_singleton, List.not_mem_nil, or_false, not_or] at h
      obtain ⟨a1, a2, a3, a4, a5, a6, a7, a8, a9⟩ := h
      simp [a1, a2, a3, a4, a5, a6, a7, a8, a9]

/-- C10.  Rejection.  For a SETUP event whose request has a type other than standard, is a
standard SET_INTERFACE, or carries a request code the handler does not know,
`usb_handle_control` returns `-1`, and the event handler sets `USB0_ENDPT[0].epstall`,
re-arms the control pipe (`usb_setup_control` hands one RX descriptor to the controller, on
slot `rx.pingpong`, with `own = 1` and DATA0, pointing at that slot's scratch buffer) and
leaves the device state, the configuration value, the pending address and `USB0_ADDR` as
they were. -/
theorem control_rejection (m : Machine) (stat : Nat)
    (htok : (m.usb.bdt (bd_index_stat stat)).tok_pid = USB_PID_SETUP)
    (hrej : (setup_req m stat).type ≠ USB_CTRL_REQ_STD ∨
      (setup_req m stat).request = USB_CTRL_REQ_SET_INTERFACE ∨
      (setup_req m stat).request ∉ [USB_CTRL_REQ_GET_STATUS, USB_CTRL_REQ_CLEAR_FEATURE,
        USB_CTRL_REQ_SET_FEATURE, USB_CTRL_REQ_SET_ADDRESS, USB_CTRL_REQ_GET_DESCRIPTOR,
        USB_CTRL_REQ_GET_CONFIGURATION, USB_CTRL_REQ_SET_CONFIGURATION,
        USB_CTRL_REQ_GET_INTERFACE, USB_CTRL_REQ_SET_INTERFACE]) :
    (usb_handle_control (usb_clear_transfers m) (setup_req m stat)).2 = -1 ∧
    ((usb_handle_control_ep m stat).USB0_ENDPT 0).epstall = 1 ∧
    (∃ a : bd_handoff, (usb_handle_control_ep m stat).armed = m.armed ++ [a] ∧
      a.idx = usb_get_bd 0 USB_EP_RX m.usb.ep0_state.rx.pingpong ∧
      (usb_handle_control_ep m stat).usb.bdt a.idx = a.desc ∧
      a.desc.own = 1 ∧
      a.desc.data01 = USB_DATA01_DATA0 ∧
      a.desc.addr = ptr_add (ep0_buf_row m.usb m.usb.ep0_state.rx.pingpong) 0) ∧
    (usb_handle_control_ep m stat).usb.state = m.usb.state ∧
    (usb_handle_control_ep m stat).usb.config = m.usb.config ∧
    (usb_handle_control_ep m stat).usb.address = m.usb.address ∧
    (usb_handle_control_ep m stat).USB0_ADDR = m.USB0_ADDR := by
  have hreq : usb_ctrl_req_at (usb_clear_transfers m).mem
      ((usb_clear_transfers m).usb.bdt (bd_index_stat stat)).addr = setup_req m stat := rfl
  have hr := usb_handle_control_reject (usb_clear_transfers m) (setup_req m stat) hrej
  have hs : usb_handle_control_ep m stat =
      { usb_setup_control (usb_ep_stall (usb_clear_transfers m) 0) with
        USB0_CTL := clear_txd_suspend m.USB0_CTL } := by
    simp only [usb_handle_control_ep, htok, if_true, handle_setup, hreq, hr]
    simp [usb_setup_control, usb_ep_stall, usb_rx, usb_rx_queue_next, usb_clear_transfers]
  rw [hs, hr]
  refine ⟨rfl, ?_, ?_, ?_, ?_, ?_, ?_⟩
  · simp [usb_setup_control, usb_ep_stall, usb_rx, usb_rx_queue_next, usb_clear_transfers]
  · simp [usb_setup_control, usb_ep_stall, usb_rx, usb_rx_queue_next, usb_clear_transfers,
      bd_word_own, bd_word_data01, USB_DATA01_DATA0, ep0_buf_row]
  · simp [usb_setup_control, usb_ep_stall, usb_rx, usb_rx_queue_next, usb_clear_transfers]
  · simp [usb_setup_control, usb_ep_stall, usb_rx, usb_rx_queue_next, usb_clear_transfers]
  · simp [usb_setup_control, usb_ep_stall, usb_rx, usb_rx_queue_next, usb_clear_transfers]
  · simp [usb_setup_control, usb_ep_stall, usb_rx, usb_rx_queue_next, usb_clear_transfers]

/-- Instance of C10: a standard SET_INTERFACE request. -/
theorem control_rejection_witness :
    (usb_handle_control (usb_clear_transfers (machine_setup 8 [1, 11, 3, 0, 0, 0, 0, 0]))
      (setup_req (machine_setup 8 [1, 11, 3, 0, 0, 0, 0, 0]) 0)).2 = -1 ∧
    ((usb_handle_control_ep (machine_setup 8 [1, 11, 3, 0, 0, 0, 0, 0]) 0).USB0_ENDPT 0).epstall
      = 1 :=
  ⟨(control_rejection (machine_setup 8 [1, 11, 3, 0, 0, 0, 0, 0]) 0 (by decide)
      (Or.inr (Or.inl (by decide)))).1,
    (control_rejection (machine_setup 8 [1, 11, 3, 0, 0, 0, 0, 0]) 0 (by decide)
      (Or.inr (Or.inl (by decide)))).2.1⟩

/-! ## Sending a small reply -/

/-- C11.  Capacity error of `usb_tx_cp`.  `usb_tx_cp(buf, len)` returns `-1` exactly when
`len > EP0_BUFSIZE`, and then leaves the whole machine (TX pipe, descriptors, memory) as it
was.  For `len ≤ EP0_BUFSIZE` it copies the `len` bytes of `buf` to the scratch buffer of
the current TX slot and nothing else in memory, and starts a TX transfer of that buffer with
transfer length and requested length `len`: `data_buf` is the scratch buffer, the one
descriptor handed off (slot `tx.pingpong`, `own = 1`) points at it,
`pos + transfer_size = len`, no callback, and no short packet is owed. -/
theorem usb_tx_cp_capacity (m : Machine) (buf : List Nat) (len : Nat) :
    ((usb_tx_cp m buf len).2 = -1 ↔ len > EP0_BUFSIZE) ∧
    (len > EP0_BUFSIZE → usb_tx_cp m buf len = (m, -1)) ∧
    (len ≤ EP0_BUFSIZE →
      (∀ i : Nat, i < len →
        (usb_tx_cp m buf len).1.mem (ep0_buf_row m.usb m.usb.ep0_state.tx.pingpong + i) =
          buf.getD i 0 % 256) ∧
      (∀ a : Nat, (a < ep0_buf_row m.usb m.usb.ep0_state.tx.pingpong ∨
          ep0_buf_row m.usb m.usb.ep0_state.tx.pingpong + len ≤ a) →
        (usb_tx_cp m buf len).1.mem a = m.mem a) ∧
      usb_tx_cp m buf len =
        usb_tx { m with mem := (memcpy m.mem (ep0_buf_row m.usb m.usb.ep0_state.tx.pingpong)
          buf len) } (ep0_buf_row m.usb m.usb.ep0_state.tx.pingpong) len len 0 0 ∧
      (usb_tx_cp m buf len).1.usb.ep0_state.tx.data_buf =
        ep0_buf_row m.usb m.usb.ep0_state.tx.pingpong ∧
      (usb_tx_cp m buf len).1.usb.ep0_state.tx.short_transfer = 0 ∧
      (usb_tx_cp m buf len).1.usb.ep0_state.tx.callback = 0 ∧
      (usb_tx_cp m buf len).1.usb.ep0_state.tx.pos +
        (usb_tx_cp m buf len).1.usb.ep0_state.tx.transfer_size = len ∧
      ∃ a : bd_handoff, (usb_tx_cp m buf len).1.armed = m.armed ++ [a] ∧
        a.idx = usb_get_bd 0 USB_EP_TX m.usb.ep0_state.tx.pingpong ∧
        a.desc.addr = ptr_add (ep0_buf_row m.usb m.usb.ep0_state.tx.pingpong) 0 ∧
        a.desc.own = 1) := by
  have hbig : len > EP0_BUFSIZE → usb_tx_cp m buf len = (m, -1) := by
    intro h
    simp [usb_tx_cp, h]
  have hsmall : len ≤ EP0_BUFSIZE → usb_tx_cp m buf len =
      usb_tx { m with mem := (memcpy m.mem (ep0_buf_row m.usb m.usb.ep0_state.tx.pingpong)
        buf len) } (ep0_buf_row m.usb m.usb.ep0_state.tx.pingpong) len len 0 0 := by
    intro h
    have h2 : ¬ len > EP0_BUFSIZE := by omega
    simp [usb_tx_cp, h2]
  refine ⟨?_, hbig, ?_⟩
  · constructor
    · intro hret
      by_contra hc
      have hle : len ≤ EP0_BUFSIZE := by omega
      rw [hsmall hle] at hret
      have hlt : (if len > len then len else len) < SIZE_MOD := by
        unfold EP0_BUFSIZE at hle
        unfold SIZE_MOD
        split <;> omega
      have hr := (usb_tx_effect
        { m with mem := (memcpy m.mem (ep0_buf_row m.usb m.usb.ep0_state.tx.pingpong) buf len) }
        (ep0_buf_row m.usb m.usb.ep0_state.tx.pingpong) len len 0 0 hlt).2.2.2
      rw [hr] at hret
      simp only [gt_iff_lt, lt_self_iff_false, if_false] at hret
      have hsm : len - (if m.usb.ep0_state.tx.ep_maxsize < len
          then m.usb.ep0_state.tx.ep_maxsize else len) < 2147483648 := by
        unfold EP0_BUFSIZE at hle
        omega
      rw [int_of_size_small hsm] at hret
      omega
    · intro h
      rw [hbig h]
  · intro hle
    have hlt : (if len > len then len else len) < SIZE_MOD := by
      unfold EP0_BUFSIZE at hle
      unfold SIZE_MOD
      split <;> omega
    obtain ⟨e1, e2, -, -⟩ := usb_tx_effect
      { m with mem := (memcpy m.mem (ep0_buf_row m.usb m.usb.ep0_state.tx.pingpong) buf len) }
      (ep0_buf_row m.usb m.usb.ep0_state.tx.pingpong) len len 0 0 hlt
    have hmem : (usb_tx_cp m buf len).1.mem =
        memcpy m.mem (ep0_buf_row m.usb m.usb.ep0_state.tx.pingpong) buf len := by
      rw [hsmall hle]
      simp [usb_tx, usb_tx_queue_next]
    refine ⟨?_, ?_, hsmall hle, ?_, ?_, ?_, ?_, ?_⟩
    · intro i hi
      rw [hmem]
      simp [memcpy, hi]
    · intro a ha
      rw [hmem]
      have : ¬ (ep0_buf_row m.usb m.usb.ep0_state.tx.pingpong ≤ a ∧
          a < ep0_buf_row m.usb m.usb.ep0_state.tx.pingpong + len) := by omega
      simp [memcpy, this]
    · rw [hsmall hle, e1]
    · rw [hsmall hle, e1]; simp
    · rw [hsmall hle, e1]
    · rw [hsmall hle, e1]
      simp only [gt_iff_lt, lt_self_iff_false, if_false]
      have := thislen_le len m.usb.ep0_state.tx.ep_maxsize
      simp only [gt_iff_lt] at this
      omega
    · rw [hsmall hle, e2]
      simp only [gt_iff_lt, lt_self_iff_false, if_false, tx_chunks]
      refine ⟨_, rfl, rfl, rfl, ?_⟩
      rw [bd_word_own]

/-- Instance of C11: 65 bytes are refused, the machine is left as it was. -/
theorem usb_tx_cp_capacity_witness :
    ((usb_tx_cp (machine_zero 8) (List.replicate 65 7) 65).2 = -1 ↔ 65 > EP0_BUFSIZE) ∧
    usb_tx_cp (machine_zero 8) (List.replicate 65 7) 65 = (machine_zero 8, -1) :=
  ⟨(usb_tx_cp_capacity (machine_zero 8) (List.replicate 65 7) 65).1,
    (usb_tx_cp_capacity (machine_zero 8) (List.replicate 65 7) 65).2.1 (by decide)⟩

/-! ## Descriptor directory: claims -/

theorem usb_get_bd_arith (ep dir pp : Nat) (hep : ep ≤ 15) (hdir : dir ≤ 1) (hpp : pp ≤ 1) :
    usb_get_bd ep dir pp = ep * 4 + dir * 2 + pp := by
  unfold usb_get_bd
  interval_cases ep <;> interval_cases dir <;> interval_cases pp <;> rfl

/-- C16.  Descriptor index.  For an endpoint `ep ≤ 15`, a direction `dir ≤ 1` and a
ping-pong slot `pp ≤ 1`, `usb_get_bd` selects the table index
`(ep << 2) | (dir << 1) | pp`, which is `ep*4 + dir*2 + pp`, and two triples that select
the same index are equal. -/
theorem usb_get_bd_index (ep dir pp ep2 dir2 pp2 : Nat)
    (hep : ep ≤ 15) (hdir : dir ≤ 1) (hpp : pp ≤ 1)
    (hep2 : ep2 ≤ 15) (hdir2 : dir2 ≤ 1) (hpp2 : pp2 ≤ 1) :
    usb_get_bd ep dir pp = (ep <<< 2) ||| (dir <<< 1) ||| pp ∧
    usb_get_bd ep dir pp = ep * 4 + dir * 2 + pp ∧
    (usb_get_bd ep dir pp = usb_get_bd ep2 dir2 pp2 → ep = ep2 ∧ dir = dir2 ∧ pp = pp2) := by
  refine ⟨rfl, usb_get_bd_arith ep dir pp hep hdir hpp, ?_⟩
  rw [usb_get_bd_arith ep dir pp hep hdir hpp, usb_get_bd_arith ep2 dir2 pp2 hep2 hdir2 hpp2]
  intro h
  omega

/-- Instance of C16: endpoint 0, TX, odd slot against endpoint 0, RX, odd slot. -/
theorem usb_get_bd_index_witness :
    usb_get_bd 0 USB_EP_TX 1 = (0 <<< 2) ||| (USB_EP_TX <<< 1) ||| 1 ∧
    usb_get_bd 0 USB_EP_TX 1 = 0 * 4 + USB_EP_TX * 2 + 1 ∧
    (usb_get_bd 0 USB_EP_TX 1 = usb_get_bd 0 USB_EP_RX 1 →
      0 = 0 ∧ USB_EP_TX = USB_EP_RX ∧ 1 = 1) :=
  usb_get_bd_index 0 USB_EP_TX 1 0 USB_EP_RX 1 (by decide) (by decide) (by decide) (by decide)
    (by decide) (by decide)

/-- C17.  Status-word resolution.  For `ep ≤ 15`, `dir ≤ 1`, `pp ≤ 1` the status word with
`pingpong` in bit 2, `dir` in bit 3, `ep` in bits 4..7 and nothing else set is resolved by
`usb_get_bd_stat` to the byte offset `stat << 1`, which is eight times (the size of a
descriptor) the index `ep*4 + dir*2 + pp`, the index `usb_get_bd(ep, dir, pp)` selects. -/
theorem usb_get_bd_stat_inverse (ep dir pp : Nat)
    (hep : ep ≤ 15) (hdir : dir ≤ 1) (hpp : pp ≤ 1) :
    usb_stat_word ep dir pp = pp * 4 + dir * 8 + ep * 16 ∧
    usb_get_bd_stat (usb_stat_word ep dir pp) = usb_stat_word ep dir pp <<< 1 ∧
    usb_get_bd_stat (usb_stat_word ep dir pp) = 8 * (ep * 4 + dir * 2 + pp) ∧
    usb_get_bd_stat (usb_stat_word ep dir pp) = 8 * usb_get_bd ep dir pp ∧
    bd_index_stat (usb_stat_word ep dir pp) = usb_get_bd ep dir pp := by
  have hw : usb_stat_word ep dir pp = pp * 4 + dir * 8 + ep * 16 := by
    unfold usb_stat_word
    rw [Nat.mod_eq_of_lt (by omega : pp < 2), Nat.mod_eq_of_lt (by omega : dir < 2),
      Nat.mod_eq_of_lt (by omega : ep < 16)]
  have hs : usb_get_bd_stat (usb_stat_word ep dir pp) = 8 * (ep * 4 + dir * 2 + pp) := by
    unfold usb_get_bd_stat
    rw [hw, Nat.shiftLeft_eq]
    omega
  have hg := usb_get_bd_arith ep dir pp hep hdir hpp
  refine ⟨hw, ?_, hs, ?_, ?_⟩
  · unfold usb_get_bd_stat
    rw [hw, Nat.shiftLeft_eq]
    omega
  · rw [hs, hg]
  · unfold bd_index_stat
    rw [hs, hg]
    omega

/-- Instance of C17: endpoint 0, TX, odd slot. -/
theorem usb_get_bd_stat_inverse_witness :
    usb_stat_word 0 USB_EP_TX 1 = 1 * 4 + USB_EP_TX * 8 + 0 * 16 ∧
    usb_get_bd_stat (usb_stat_word 0 USB_EP_TX 1) = usb_stat_word 0 USB_EP_TX 1 <<< 1 ∧
    usb_get_bd_stat (usb_stat_word 0 USB_EP_TX 1) = 8 * (0 * 4 + USB_EP_TX * 2 + 1) ∧
    usb_get_bd_stat (usb_stat_word 0 USB_EP_TX 1) = 8 * usb_get_bd 0 USB_EP_TX 1 ∧
    bd_index_stat (usb_stat_word 0 USB_EP_TX 1) = usb_get_bd 0 USB_EP_TX 1 :=
  usb_get_bd_stat_inverse 0 USB_EP_TX 1 (by decide) (by decide) (by decide)

/-! ## Control transfers: from the data stage to the status stage -/

theorem usb_tx_next_frame (m : Machine) :
    (usb_tx_next m).1.usb.ctrl_state = m.usb.ctrl_state ∧
    (usb_tx_next m).1.usb.ep0_state.rx = m.usb.ep0_state.rx ∧
    ((usb_tx_next m).2 = 0 →
      (usb_tx_next m).1.usb.bdt = m.usb.bdt ∧ (usb_tx_next m).1.armed = m.armed) ∧
    ((usb_tx_next m).2 ≠ 0 → ∃ a : bd_handoff,
      (usb_tx_next m).1.armed = m.armed ++ [a] ∧
      a.idx = usb_get_bd 0 USB_EP_TX m.usb.ep0_state.tx.pingpong) := by
  unfold usb_tx_next
  simp only [tx_toggle, usb_tx_queue_next]
  split_ifs <;> simp

theorem usb_rx_next_frame (m : Machine) :
    (usb_rx_next m).1.usb.ctrl_state = m.usb.ctrl_state ∧
    (usb_rx_next m).1.usb.ep0_state.tx = m.usb.ep0_state.tx ∧
    ((usb_rx_next m).2 = 0 →
      (usb_rx_next m).1.usb.bdt = m.usb.bdt ∧ (usb_rx_next m).1.armed = m.armed) ∧
    ((usb_rx_next m).2 ≠ 0 → ∃ a : bd_handoff,
      (usb_rx_next m).1.armed = m.armed ++ [a] ∧
      a.idx = usb_get_bd 0 USB_EP_RX (m.usb.ep0_state.rx.pingpong ^^^ 1)) := by
  unfold usb_rx_next
  simp only [usb_rx_queue_next]
  split_ifs <;> simp

theorem usb_handle_control_ep_in (m : Machine) (stat : Nat)
    (htok : (m.usb.bdt (bd_index_stat stat)).tok_pid = USB_PID_IN) :
    usb_handle_control_ep m stat =
      if (usb_tx_next m).2 ≠ 0 then (usb_tx_next m).1
      else status_or_done (usb_tx_next m).1 stat := by
  have hne : ¬ USB_PID_IN = USB_PID_SETUP := by decide
  simp only [usb_handle_control_ep, htok, hne, if_false, if_true]

theorem usb_handle_control_ep_out (m : Machine) (stat : Nat)
    (htok : (m.usb.bdt (bd_index_stat stat)).tok_pid = USB_PID_OUT) :
    usb_handle_control_ep m stat =
      if (usb_rx_next m).2 ≠ 0 then (usb_rx_next m).1
      else status_or_done (usb_rx_next m).1 stat := by
  have hne : ¬ USB_PID_OUT = USB_PID_SETUP := by decide
  have hne2 : ¬ USB_PID_OUT = USB_PID_IN := by decide
  simp only [usb_handle_control_ep, htok, hne, hne2, if_false, if_true]

/-- The status stage armed by `status_or_done` when the control stage is Data: an empty
descriptor with `own = 1` and DATA1, on the RX pipe after an IN token and on the TX pipe
after any other token. -/
theorem status_or_done_data (m : Machine) (stat : Nat)
    (hcs : m.usb.ctrl_state = USBD_CTRL_STATE_DATA) :
    (status_or_done m stat).usb.ctrl_state = USBD_CTRL_STATE_STATUS ∧
    ∃ a : bd_handoff, (status_or_done m stat).armed = m.armed ++ [a] ∧
      (status_or_done m stat).usb.bdt a.idx = a.desc ∧
      a.idx = (if (m.usb.bdt (bd_index_stat stat)).tok_pid = USB_PID_IN
        then usb_get_bd 0 USB_EP_RX m.usb.ep0_state.rx.pingpong
        else usb_get_bd 0 USB_EP_TX m.usb.ep0_state.tx.pingpong) ∧
      a.desc.bc = 0 ∧ a.desc.own = 1 ∧ a.desc.data01 = USB_DATA01_DATA1 := by
  have h0 : ∀ M : Nat, (if 0 > M then M else 0) = 0 := by
    intro M; split <;> omega
  by_cases htok : (m.usb.bdt (bd_index_stat stat)).tok_pid = USB_PID_IN
  · simp [status_or_done, hcs, htok, usb_rx, usb_rx_queue_next, bd_word_bc, bd_word_own,
      bd_word_data01, USB_DATA01_DATA1, h0]
  · simp [status_or_done, hcs, htok, usb_tx, usb_tx_queue_next, bd_word_bc, bd_word_own,
      bd_word_data01, USB_DATA01_DATA1, h0]

/-- C13.  Data to Status.  With the control stage Data: an IN completion for which
`usb_tx_next` returns `0` moves the stage to Status and arms one empty descriptor on the RX
pipe with `own = 1` and DATA1; an OUT completion for which `usb_rx_next` returns `0` does
the same on the TX pipe; when the engine returns non-zero the stage stays Data and the only
descriptor handed off is the engine's next chunk on the pipe of the event. -/
theorem data_to_status (m : Machine) (stat : Nat)
    (hcs : m.usb.ctrl_state = USBD_CTRL_STATE_DATA) :
    ((m.usb.bdt (bd_index_stat stat)).tok_pid = USB_PID_IN → (usb_tx_next m).2 = 0 →
      (usb_handle_control_ep m stat).usb.ctrl_state = USBD_CTRL_STATE_STATUS ∧
      ∃ a : bd_handoff, (usb_handle_control_ep m stat).armed = m.armed ++ [a] ∧
        (usb_handle_control_ep m stat).usb.bdt a.idx = a.desc ∧
        a.idx = usb_get_bd 0 USB_EP_RX m.usb.ep0_state.rx.pingpong ∧
        a.desc.bc = 0 ∧ a.desc.own = 1 ∧ a.desc.data01 = USB_DATA01_DATA1) ∧
    ((m.usb.bdt (bd_index_stat stat)).tok_pid = USB_PID_OUT → (usb_rx_next m).2 = 0 →
      (usb_handle_control_ep m stat).usb.ctrl_state = USBD_CTRL_STATE_STATUS ∧
      ∃ a : bd_handoff, (usb_handle_control_ep m stat).armed = m.armed ++ [a] ∧
        (usb_handle_control_ep m stat).usb.bdt a.idx = a.desc ∧
        a.idx = usb_get_bd 0 USB_EP_TX m.usb.ep0_state.tx.pingpong ∧
        a.desc.bc = 0 ∧ a.desc.own = 1 ∧ a.desc.data01 = USB_DATA01_DATA1) ∧
    ((m.usb.bdt (bd_index_stat stat)).tok_pid = USB_PID_IN → (usb_tx_next m).2 ≠ 0 →
      usb_handle_control_ep m stat = (usb_tx_next m).1 ∧
      (usb_handle_control_ep m stat).usb.ctrl_state = USBD_CTRL_STATE_DATA ∧
      ∃ a : bd_handoff, (usb_handle_control_ep m stat).armed = m.armed ++ [a] ∧
        a.idx = usb_get_bd 0 USB_EP_TX m.usb.ep0_state.tx.pingpong) ∧
    ((m.usb.bdt (bd_index_stat stat)).tok_pid = USB_PID_OUT → (usb_rx_next m).2 ≠ 0 →
      usb_handle_control_ep m stat = (usb_rx_next m).1 ∧
      (usb_handle_control_ep m stat).usb.ctrl_state = USBD_CTRL_STATE_DATA ∧
      ∃ a : bd_handoff, (usb_handle_control_ep m stat).armed = m.armed ++ [a] ∧
        a.idx = usb_get_bd 0 USB_EP_RX (m.usb.ep0_state.rx.pingpong ^^^ 1)) := by
  obtain ⟨t1, t2, t3, t4⟩ := usb_tx_next_frame m
  obtain ⟨r1, r2, r3, r4⟩ := usb_rx_next_frame m
  have hne : ¬ USB_PID_OUT = USB_PID_IN := by decide
  refine ⟨?_, ?_, ?_, ?_⟩
  · intro htok hfin
    obtain ⟨b1, b2⟩ := t3 hfin
    have hnn : ¬ (usb_tx_next m).2 ≠ 0 := by simp [hfin]
    rw [usb_handle_control_ep_in m stat htok, if_neg hnn]
    obtain ⟨s1, a, s2, s3, s4, s5⟩ := status_or_done_data (usb_tx_next m).1 stat
      (by rw [t1]; exact hcs)
    rw [b1, htok, if_pos rfl, t2] at s4
    rw [b2] at s2
    exact ⟨s1, a, s2, s3, s4, s5⟩
  · intro htok hfin
    obtain ⟨b1, b2⟩ := r3 hfin
    have hnn : ¬ (usb_rx_next m).2 ≠ 0 := by simp [hfin]
    rw [usb_handle_control_ep_out m stat htok, if_neg hnn]
    obtain ⟨s1, a, s2, s3, s4, s5⟩ := status_or_done_data (usb_rx_next m).1 stat
      (by rw [r1]; exact hcs)
    rw [b1, htok, if_neg hne, r2] at s4
    rw [b2] at s2
    exact ⟨s1, a, s2, s3, s4, s5⟩
  · intro htok hmore
    rw [usb_handle_control_ep_in m stat htok, if_pos hmore]
    exact ⟨rfl, by rw [t1]; exact hcs, t4 hmore⟩
  · intro htok hmore
    rw [usb_handle_control_ep_out m stat htok, if_pos hmore]
    exact ⟨rfl, by rw [r1]; exact hcs, r4 hmore⟩

/-- Instance of C13: the IN completion that ends a data stage with nothing left to send. -/
theorem data_to_status_witness :
    (usb_handle_control_ep (machine_data 8 USB_PID_IN) 8).usb.ctrl_state =
      USBD_CTRL_STATE_STATUS ∧
    ∃ a : bd_handoff, (usb_handle_control_ep (machine_data 8 USB_PID_IN) 8).armed =
        (machine_data 8 USB_PID_IN).armed ++ [a] ∧
      (usb_handle_control_ep (machine_data 8 USB_PID_IN) 8).usb.bdt a.idx = a.desc ∧
      a.idx = usb_get_bd 0 USB_EP_RX (machine_data 8 USB_PID_IN).usb.ep0_state.rx.pingpong ∧
      a.desc.bc = 0 ∧ a.desc.own = 1 ∧ a.desc.data01 = USB_DATA01_DATA1 :=
  (data_to_status (machine_data 8 USB_PID_IN) 8 rfl).1 (by decide) (by decide)

/-! ## Control transfers: the status stage armed from the SETUP handler -/

theorem usb_tx_cp_armed_length (m : Machine) (buf : List Nat) (len : Nat)
    (h : len ≤ EP0_BUFSIZE) :
    (usb_tx_cp m buf len).1.armed.length = m.armed.length + 1 := by
  have h2 : ¬ len > EP0_BUFSIZE := by omega
  simp [usb_tx_cp, h2, usb_tx, usb_tx_queue_next]

/-- The ways `usb_handle_control` can end: one of its three `usb_tx_cp` calls, or a
result that leaves the pipes, the descriptors and both traces alone. -/
theorem usb_handle_control_cases (m : Machine) (req : usb_ctrl_req_t) :
    usb_handle_control m req = usb_tx_cp m zero16 2 ∨
    usb_handle_control m req = usb_tx_cp m (int_bytes m.usb.config) 1 ∨
    usb_handle_control m req = usb_tx_cp m zero16 1 ∨
    ((usb_handle_control m req).1.usb.ep0_state = m.usb.ep0_state ∧
      (usb_handle_control m req).1.usb.bdt = m.usb.bdt ∧
      (usb_handle_control m req).1.calls = m.calls ∧
      (usb_handle_control m req).1.armed = m.armed) := by
  unfold usb_handle_control
  by_cases h1 : req.type ≠ USB_CTRL_REQ_STD
  · rw [if_pos h1]; exact Or.inr (Or.inr (Or.inr ⟨rfl, rfl, rfl, rfl⟩))
  rw [if_neg h1]
  by_cases h2 : req.request = USB_CTRL_REQ_GET_STATUS
  · rw [if_pos h2]; exact Or.inl rfl
  rw [if_neg h2]
  by_cases h3 : req.request = USB_CTRL_REQ_CLEAR_FEATURE ∨ req.request = USB_CTRL_REQ_SET_FEATURE
  · rw [if_pos h3]; exact Or.inr (Or.inr (Or.inr ⟨rfl, rfl, rfl, rfl⟩))
  rw [if_neg h3]
  by_cases h4 : req.request = USB_CTRL_REQ_SET_ADDRESS
  · rw [if_pos h4]; exact Or.inr (Or.inr (Or.inr ⟨rfl, rfl, rfl, rfl⟩))
  rw [if_neg h4]
  by_cases h5 : req.request = USB_CTRL_REQ_GET_DESCRIPTOR
  · rw [if_pos h5]; exact Or.inr (Or.inr (Or.inr ⟨rfl, rfl, rfl, rfl⟩))
  rw [if_neg h5]
  by_cases h6 : req.request = USB_CTRL_REQ_GET_CONFIGURATION
  · rw [if_pos h6]; exact Or.inr (Or.inl rfl)
  rw [if_neg h6]
  by_cases h7 : req.request = USB_CTRL_REQ_SET_CONFIGURATION
  · rw [if_pos h7]; exact Or.inr (Or.inr (Or.inr ⟨rfl, rfl, rfl, rfl⟩))
  rw [if_neg h7]
  by_cases h8 : req.request = USB_CTRL_REQ_GET_INTERFACE
  · rw [if_pos h8]; exact Or.inr (Or.inr (Or.inl rfl))
  rw [if_neg h8]
  by_cases h9 : req.request = USB_CTRL_REQ_SET_INTERFACE
  · rw [if_pos h9]; exact Or.inr (Or.inr (Or.inr ⟨rfl, rfl, rfl, rfl⟩))
  rw [if_neg h9]; exact Or.inr (Or.inr (Or.inr ⟨rfl, rfl, rfl, rfl⟩))

/-- A request for which `usb_handle_control` queues no descriptor leaves the pipes, the
descriptor table and the callback trace alone. -/
theorem usb_handle_control_no_queue (m : Machine) (req : usb_ctrl_req_t)
    (h : (usb_handle_control m req).1.armed = m.armed) :
    (usb_handle_control m req).1.usb.ep0_state = m.usb.ep0_state ∧
    (usb_handle_control m req).1.usb.bdt = m.usb.bdt ∧
    (usb_handle_control m req).1.calls = m.calls := by
  have hlen := congrArg List.length h
  have q2 := usb_tx_cp_armed_length m zero16 2 (by decide)
  have q1 := usb_tx_cp_armed_length m zero16 1 (by decide)
  have qc := usb_tx_cp_armed_length m (int_bytes m.usb.config) 1 (by decide)
  rcases usb_handle_control_cases m req with e | e | e | ⟨e1, e2, e3, -⟩
  · rw [e] at hlen; omega
  · rw [e] at hlen; omega
  · rw [e] at hlen; omega
  · exact ⟨e1, e2, e3⟩

/-- The SETUP arm of the handler when `usb_handle_control` returns `0`. -/
theorem handle_setup_zero (m : Machine) (stat : Nat)
    (htok : (m.usb.bdt (bd_index_stat stat)).tok_pid = USB_PID_SETUP)
    (hret : (usb_handle_control (usb_clear_transfers m) (setup_req m stat)).2 = 0) :
    usb_handle_control_ep m stat =
      { (usb_tx (with_ctrl_state
          (usb_handle_control (usb_clear_transfers m) (setup_req m stat)).1
          USBD_CTRL_STATE_STATUS) 0 0 0 0 0).1 with
        USB0_CTL := clear_txd_suspend
          (usb_tx (with_ctrl_state
            (usb_handle_control (usb_clear_transfers m) (setup_req m stat)).1
            USBD_CTRL_STATE_STATUS) 0 0 0 0 0).1.USB0_CTL } := by
  have hreq : usb_ctrl_req_at (usb_clear_transfers m).mem
      ((usb_clear_transfers m).usb.bdt (bd_index_stat stat)).addr = setup_req m stat := rfl
  simp only [usb_handle_control_ep, htok, if_true, handle_setup, hreq]
  generalize usb_handle_control (usb_clear_transfers m) (setup_req m stat) = r at hret ⊢
  obtain ⟨m2, rv⟩ := r
  simp only at hret
  subst hret
  simp [with_ctrl_state]

/-- C12 as stated fails: a SET_ADDRESS request whose direction bit is set (`in = 1`) makes
the handler return `0`, the control stage becomes Status, and the empty status transfer is
armed on the TX pipe; nothing is armed on the RX pipe. -/
theorem setup_status_direction_fails :
    (setup_req (machine_setup 8 [128, 5, 42, 0, 0, 0, 0, 0]) 0).in_ = 1 ∧
    (usb_handle_control (usb_clear_transfers (machine_setup 8 [128, 5, 42, 0, 0, 0, 0, 0]))
      (setup_req (machine_setup 8 [128, 5, 42, 0, 0, 0, 0, 0]) 0)).2 = 0 ∧
    (usb_handle_control_ep (machine_setup 8 [128, 5, 42, 0, 0, 0, 0, 0]) 0).usb.ctrl_state =
      USBD_CTRL_STATE_STATUS ∧
    (usb_handle_control_ep (machine_setup 8 [128, 5, 42, 0, 0, 0, 0, 0]) 0).armed.map
      (fun a => (a.idx, a.desc.bc)) = [(usb_get_bd 0 USB_EP_TX 0, 0)] ∧
    ¬ (∃ a ∈ (usb_handle_control_ep (machine_setup 8 [128, 5, 42, 0, 0, 0, 0, 0]) 0).armed,
        a.idx = usb_get_bd 0 USB_EP_RX 0 ∨ a.idx = usb_get_bd 0 USB_EP_RX 1) := by
  decide

/-- C12 (amended).  For every SETUP whose handler returns `0` without having queued a
descriptor (no data stage), the control stage becomes Status and the empty status-stage
transfer is armed on the TX pipe (an IN status stage), whatever the direction bit of the
request: one descriptor on slot `tx.pingpong` with byte count 0 and `own = 1`. -/
theorem setup_status_no_data (m : Machine) (stat : Nat)
    (htok : (m.usb.bdt (bd_index_stat stat)).tok_pid = USB_PID_SETUP)
    (hret : (usb_handle_control (usb_clear_transfers m) (setup_req m stat)).2 = 0)
    (hnoq : (usb_handle_control (usb_clear_transfers m) (setup_req m stat)).1.armed =
      m.armed) :
    (usb_handle_control_ep m stat).usb.ctrl_state = USBD_CTRL_STATE_STATUS ∧
    ∃ a : bd_handoff, (usb_handle_control_ep m stat).armed = m.armed ++ [a] ∧
      (usb_handle_control_ep m stat).usb.bdt a.idx = a.desc ∧
      a.idx = usb_get_bd 0 USB_EP_TX m.usb.ep0_state.tx.pingpong ∧
      a.desc.bc = 0 ∧ a.desc.own = 1 := by
  have hq := usb_handle_control_no_queue (usb_clear_transfers m) (setup_req m stat) hnoq
  have h0 : ∀ M : Nat, (if 0 > M then M else 0) = 0 := by
    intro M; split <;> omega
  rw [handle_setup_zero m stat htok hret]
  have hpp : (usb_handle_control (usb_clear_transfers m)
      (setup_req m stat)).1.usb.ep0_state.tx.pingpong = m.usb.ep0_state.tx.pingpong := by
    rw [hq.1]; rfl
  refine ⟨by simp [usb_tx, usb_tx_queue_next, with_ctrl_state], ?_⟩
  refine ⟨{ idx := usb_get_bd 0 USB_EP_TX m.usb.ep0_state.tx.pingpong,
            desc := { bd := bd_word 0 (usb_handle_control (usb_clear_transfers m)
              (setup_req m stat)).1.usb.ep0_state.tx.data01, addr := 0 } }, ?_, ?_, rfl, ?_, ?_⟩
  · simp [usb_tx, usb_tx_queue_next, with_ctrl_state, hnoq, hpp, h0, ptr_add_zero_zero]
  · simp [usb_tx, usb_tx_queue_next, with_ctrl_state, hpp, h0, ptr_add_zero_zero]
  · rw [bd_word_bc]
  · rw [bd_word_own]

/-- Instance of C12 (amended): SET_ADDRESS with value 42, direction bit clear. -/
theorem setup_status_no_data_witness :
    (usb_handle_control_ep (machine_setup 8 [0, 5, 42, 0, 0, 0, 0, 0]) 0).usb.ctrl_state =
      USBD_CTRL_STATE_STATUS ∧
    ∃ a : bd_handoff, (usb_handle_control_ep (machine_setup 8 [0, 5, 42, 0, 0, 0, 0, 0]) 0).armed =
        (machine_setup 8 [0, 5, 42, 0, 0, 0, 0, 0]).armed ++ [a] ∧
      (usb_handle_control_ep (machine_setup 8 [0, 5, 42, 0, 0, 0, 0, 0]) 0).usb.bdt a.idx =
        a.desc ∧
      a.idx = usb_get_bd 0 USB_EP_TX
        (machine_setup 8 [0, 5, 42, 0, 0, 0, 0, 0]).usb.ep0_state.tx.pingpong ∧
      a.desc.bc = 0 ∧ a.desc.own = 1 :=
  setup_status_no_data (machine_setup 8 [0, 5, 42, 0, 0, 0, 0, 0]) 0 (by decide) (by decide)
    (by decide)

/-! ## Defects found in the SETUP path, the scratch buffers and the state machine -/

theorem usb_handle_control_frame (m : Machine) (req : usb_ctrl_req_t) :
    (usb_handle_control m req).1.usb.ctrl_state = m.usb.ctrl_state ∧
    (usb_handle_control m req).1.calls = m.calls := by
  unfold usb_handle_control
  split_ifs <;> simp [usb_tx_cp, usb_tx, usb_tx_queue_next, EP0_BUFSIZE]

/-- What a SETUP event does to the control stage and to the callback trace, for any
machine: Status when the handler returns `0`, the old stage when it returns `-1`, Data
otherwise; no callback is invoked. -/
theorem handle_setup_stage (m : Machine) (stat : Nat)
    (htok : (m.usb.bdt (bd_index_stat stat)).tok_pid = USB_PID_SETUP) :
    (usb_handle_control_ep m stat).usb.ctrl_state =
      (if (usb_handle_control (usb_clear_transfers m) (setup_req m stat)).2 = 0
        then USBD_CTRL_STATE_STATUS
       else if (usb_handle_control (usb_clear_transfers m) (setup_req m stat)).2 = -1
        then m.usb.ctrl_state
       else USBD_CTRL_STATE_DATA) ∧
    (usb_handle_control_ep m stat).calls = m.calls := by
  have hreq : usb_ctrl_req_at (usb_clear_transfers m).mem
      ((usb_clear_transfers m).usb.bdt (bd_index_stat stat)).addr = setup_req m stat := rfl
  obtain ⟨f1, f2⟩ := usb_handle_control_frame (usb_clear_transfers m) (setup_req m stat)
  have f1b : (usb_handle_control (usb_clear_transfers m) (setup_req m stat)).1.usb.ctrl_state =
      m.usb.ctrl_state := f1
  have f2b : (usb_handle_control (usb_clear_transfers m) (setup_req m stat)).1.calls =
      m.calls := f2
  simp only [usb_handle_control_ep, htok, if_true, handle_setup, hreq]
  generalize usb_handle_control (usb_clear_transfers m) (setup_req m stat) = r at f1b f2b ⊢
  obtain ⟨m2, rv⟩ := r
  simp only at f1b f2b ⊢
  by_cases h0 : rv = 0
  · simp [h0, usb_tx, usb_tx_queue_next, f2b]
  · by_cases h1 : rv = -1
    · simp [h1, usb_setup_control, usb_ep_stall, usb_rx, usb_rx_queue_next, f1b, f2b]
    · simp [h0, h1, f2b]

/-- C14 (code defect).  A SETUP carrying a rejected request (standard SET_INTERFACE) does
not reset the control stage: handled in stage Data the stage stays Data, handled in stage
Status it stays Status, so the stage after the event depends on the stage before it.  No
completion callback is invoked in either case. -/
theorem setup_rejected_keeps_stage :
    setup_req (with_ctrl_state (machine_setup 8 [1, 11, 3, 0, 0, 0, 0, 0])
        USBD_CTRL_STATE_DATA) 0 =
      setup_req (with_ctrl_state (machine_setup 8 [1, 11, 3, 0, 0, 0, 0, 0])
        USBD_CTRL_STATE_STATUS) 0 ∧
    (usb_handle_control_ep (with_ctrl_state (machine_setup 8 [1, 11, 3, 0, 0, 0, 0, 0])
      USBD_CTRL_STATE_DATA) 0).usb.ctrl_state = USBD_CTRL_STATE_DATA ∧
    (usb_handle_control_ep (with_ctrl_state (machine_setup 8 [1, 11, 3, 0, 0, 0, 0, 0])
      USBD_CTRL_STATE_STATUS) 0).usb.ctrl_state = USBD_CTRL_STATE_STATUS ∧
    (usb_handle_control_ep (with_ctrl_state (machine_setup 8 [1, 11, 3, 0, 0, 0, 0, 0])
      USBD_CTRL_STATE_DATA) 0).calls = [] ∧
    (usb_handle_control_ep (with_ctrl_state (machine_setup 8 [1, 11, 3, 0, 0, 0, 0, 0])
      USBD_CTRL_STATE_STATUS) 0).calls = [] := by
  decide

/-- Whatever the completed descriptor pointed at, a SETUP on one of the first four
descriptors is decoded from address `0`. -/
theorem setup_req_null (m : Machine) (stat : Nat) (h : bd_index_stat stat < 4) :
    setup_req m stat = usb_ctrl_req_at m.mem 0 := by
  simp [setup_req, usb_clear_transfers, h]

/-- C15 (code defect).  The request is not read from the buffer the completed descriptor
pointed to.  A SETUP packet SET_ADDRESS(42) received at address 4096, the address in
descriptor 0, is decoded from address 0 instead (`bd->addr` is read after
`usb_clear_transfers` has zeroed the descriptor): the handler sees an all-zero request,
and the device state and pending address stay as they were. -/
theorem setup_decoded_from_null :
    ((machine_setup_received 8 [0, 5, 42, 0, 0, 0, 0, 0]).usb.bdt (bd_index_stat 0)).addr =
      4096 ∧
    usb_ctrl_req_at (machine_setup_received 8 [0, 5, 42, 0, 0, 0, 0, 0]).mem 4096 =
      { recp := 0, type := USB_CTRL_REQ_STD, in_ := 0, request := USB_CTRL_REQ_SET_ADDRESS,
        value := 42, index := 0, length := 0 } ∧
    setup_req (machine_setup_received 8 [0, 5, 42, 0, 0, 0, 0, 0]) 0 =
      usb_ctrl_req_at (machine_setup_received 8 [0, 5, 42, 0, 0, 0, 0, 0]).mem 0 ∧
    setup_req (machine_setup_received 8 [0, 5, 42, 0, 0, 0, 0, 0]) 0 =
      { recp := 0, type := 0, in_ := 0, request := 0, value := 0, index := 0, length := 0 } ∧
    (usb_handle_control_ep (machine_setup_received 8 [0, 5, 42, 0, 0, 0, 0, 0]) 0).usb.state =
      USBD_STATE_DISABLED ∧
    (usb_handle_control_ep (machine_setup_received 8 [0, 5, 42, 0, 0, 0, 0, 0]) 0).usb.address =
      0 := by
  decide

/-- The two scratch rows start two bytes apart, for any driver state. -/
theorem ep0_buf_rows_apart (u : usbd_t) : ep0_buf_row u 1 = ep0_buf_row u 0 + 2 := by
  simp [ep0_buf_row]

/-- C18 (code defect).  The scratch buffers of the two ping-pong slots overlap: slot 1's
buffer starts two bytes after slot 0's, inside its `EP0_BUFSIZE` bytes.  Copying four bytes
into slot 0's buffer with `usb_tx_cp` (the TX slot is 0) changes the first byte of slot 1's
buffer from 0 to 3; and the receive `usb_setup_control` sets up for slot 0 is a transfer of
`EP0_BUFSIZE` bytes into slot 0's buffer, a region that holds the start of slot 1's buffer
too. -/
theorem ep0_buf_slots_overlap :
    ep0_buf_row (machine_zero 8).usb 1 = ep0_buf_row (machine_zero 8).usb 0 + 2 ∧
    ep0_buf_row (machine_zero 8).usb 1 < ep0_buf_row (machine_zero 8).usb 0 + EP0_BUFSIZE ∧
    (machine_zero 8).usb.ep0_state.tx.pingpong = 0 ∧
    (machine_zero 8).mem (ep0_buf_row (machine_zero 8).usb 1) = 0 ∧
    (usb_tx_cp (machine_zero 8) [1, 2, 3, 4] 4).1.mem (ep0_buf_row (machine_zero 8).usb 1) = 3 ∧
    (usb_setup_control (machine_zero 8)).armed.map (fun a => (a.idx, a.desc.addr)) =
      [(usb_get_bd 0 USB_EP_RX 0, ep0_buf_row (machine_zero 8).usb 0)] ∧
    (usb_setup_control (machine_zero 8)).usb.ep0_state.rx.data_buf =
      ep0_buf_row (machine_zero 8).usb 0 ∧
    (usb_setup_control (machine_zero 8)).usb.ep0_state.rx.transfer_size = EP0_BUFSIZE := by
  decide

/-- C19 (code defect).  After a SETUP the driver re-arms the RX slot the SETUP completed
on, not the opposite one.  A rejected SETUP completed on RX slot 0 is followed by
`usb_setup_control` arming descriptor 0 again; an accepted one (SET_ADDRESS) is followed,
once the status stage has completed, by `usb_setup_control` arming descriptor 0 again:
`rx.pingpong` is flipped by `usb_rx_next` only, which the SETUP path never calls. -/
theorem setup_rearms_same_slot :
    bd_index_stat (usb_stat_word 0 USB_EP_RX 0) = usb_get_bd 0 USB_EP_RX 0 ∧
    (machine_setup 8 [1, 11, 3, 0, 0, 0, 0, 0]).usb.ep0_state.rx.pingpong = 0 ∧
    (usb_handle_control_ep (machine_setup 8 [1, 11, 3, 0, 0, 0, 0, 0])
      (usb_stat_word 0 USB_EP_RX 0)).armed.map (fun a => a.idx) = [usb_get_bd 0 USB_EP_RX 0] ∧
    usb_get_bd 0 USB_EP_RX 0 ≠ usb_get_bd 0 USB_EP_RX 1 ∧
    (usb_handle_control_ep
      { usb_handle_control_ep (machine_setup 8 [0, 5, 42, 0, 0, 0, 0, 0])
          (usb_stat_word 0 USB_EP_RX 0) with
        usb := { (usb_handle_control_ep (machine_setup 8 [0, 5, 42, 0, 0, 0, 0, 0])
            (usb_stat_word 0 USB_EP_RX 0)).usb with bdt := fun _ => ⟨USB_PID_IN * 4, 0⟩ } }
      (usb_stat_word 0 USB_EP_TX 0)).armed.map (fun a => a.idx) =
        [usb_get_bd 0 USB_EP_TX 0, usb_get_bd 0 USB_EP_RX 0] := by
  decide

/-- A standard SET_CONFIGURATION always leaves the device in state Configured. -/
theorem set_configuration_state (m : Machine) (req : usb_ctrl_req_t)
    (h1 : req.type = USB_CTRL_REQ_STD) (h2 : req.request = USB_CTRL_REQ_SET_CONFIGURATION) :
    (usb_handle_control m req).1.usb.state = USBD_STATE_CONFIGURED ∧
    (usb_handle_control m req).1.usb.config = req.value := by
  simp [usb_handle_control, h1, h2, USB_CTRL_REQ_STD, USB_CTRL_REQ_SET_CONFIGURATION,
    USB_CTRL_REQ_GET_STATUS, USB_CTRL_REQ_CLEAR_FEATURE, USB_CTRL_REQ_SET_FEATURE,
    USB_CTRL_REQ_SET_ADDRESS, USB_CTRL_REQ_GET_DESCRIPTOR, USB_CTRL_REQ_GET_CONFIGURATION]

/-- C20 (code defect).  SET_CONFIGURATION with value 0 received in state Configured leaves
the device in state Configured, not Address as the source's state-machine comment says;
with a non-zero value received in state Address it moves to Configured. -/
theorem set_configuration_zero_stays_configured :
    (usb_handle_control (with_dev_state (machine_zero 8) USBD_STATE_CONFIGURED)
      { recp := 0, type := USB_CTRL_REQ_STD, in_ := 0,
        request := USB_CTRL_REQ_SET_CONFIGURATION, value := 0, index := 0, length := 0 }).1.usb.state
      = USBD_STATE_CONFIGURED ∧
    (usb_handle_control_ep (with_dev_state (machine_setup 8 [0, 9, 0, 0, 0, 0, 0, 0])
      USBD_STATE_CONFIGURED) 0).usb.state = USBD_STATE_CONFIGURED ∧
    (usb_handle_control_ep (with_dev_state (machine_setup 8 [0, 9, 0, 0, 0, 0, 0, 0])
      USBD_STATE_CONFIGURED) 0).usb.state ≠ USBD_STATE_ADDRESS ∧
    (usb_handle_control_ep (with_dev_state (machine_setup 8 [0, 9, 1, 0, 0, 0, 0, 0])
      USBD_STATE_ADDRESS) 0).usb.state = USBD_STATE_CONFIGURED := by
  decide

/-! ## RX engine: accounting -/

/-- The counters after a call of `usb_rx_next`, whichever way it returns: the byte count
read from the descriptor in use is subtracted from `transfer_size` and added to `pos`, in
`size_t` arithmetic. -/
theorem usb_rx_next_counters (m : Machine) :
    (usb_rx_next m).1.usb.ep0_state.rx.transfer_size =
      size_sub m.usb.ep0_state.rx.transfer_size
        (m.usb.bdt (usb_get_bd 0 USB_EP_RX m.usb.ep0_state.rx.pingpong)).bc ∧
    (usb_rx_next m).1.usb.ep0_state.rx.pos =
      size_add m.usb.ep0_state.rx.pos
        (m.usb.bdt (usb_get_bd 0 USB_EP_RX m.usb.ep0_state.rx.pingpong)).bc := by
  unfold usb_rx_next
  simp only [usb_rx_queue_next]
  split_ifs <;> simp

/-- The descriptor `usb_rx` arms lies inside the buffer. -/
theorem usb_rx_armed_inside (m : Machine) (buf L cb ctx : Nat) (hb : buf < SIZE_MOD) :
    ∃ a : bd_handoff, (usb_rx m buf L cb ctx).1.armed = m.armed ++ [a] ∧
      buf ≤ a.desc.addr ∧ a.desc.addr + a.desc.bc ≤ buf + L ∧
      (0 < L → a.desc.addr < buf + L) := by
  have hp : ptr_add buf 0 = buf := ptr_add_of_lt (by omega)
  refine ⟨_, rfl, ?_, ?_, ?_⟩
  · simp only [hp]
    exact Nat.le_refl _
  · simp only [bd_word_bc, hp]
    omega
  · intro h
    simp only [hp]
    omega

/-- When `usb_rx_next` asks for more inside an RX transfer, the invariant is kept and the
one descriptor it arms lies inside the buffer. -/
theorem usb_rx_next_more_inside (buf L cb ctx M : Nat) (calls0 : List callback_call)
    (total : Nat) (m : Machine) (d : USB_BD_t) (hL : L < SIZE_MOD) (hbuf : buf + L ≤ SIZE_MOD)
    (hinv : rx_inv buf L cb ctx M calls0 total m)
    (hd : d.bc ≤ rx_thislen m)
    (hmore : (usb_rx_next (rx_complete m d)).2 ≠ 0) :
    rx_inv buf L cb ctx M calls0 (total + d.bc) (usb_rx_next (rx_complete m d)).1 ∧
    ∃ a : bd_handoff, (usb_rx_next (rx_complete m d)).1.armed = m.armed ++ [a] ∧
      buf ≤ a.desc.addr ∧ a.desc.addr + a.desc.bc ≤ buf + L ∧
      (0 < L → a.desc.addr < buf + L) := by
  obtain ⟨-, s2, s3, s4⟩ := (usb_rx_next_step buf L cb ctx M calls0 total m d hL hinv hd).2.2
    hmore
  have hp : ptr_add buf (total + d.bc) = buf + (total + d.bc) := ptr_add_of_lt (by omega)
  refine ⟨s2, _, s3, ?_, ?_, ?_⟩
  · simp only [hp]
    omega
  · simp only [bd_word_bc, hp]
    omega
  · intro _
    simp only [hp]
    omega

/-- Every descriptor armed along an RX transfer in flight lies inside the buffer. -/
theorem rx_in_flight_armed_inside (buf L cb ctx M : Nat) (calls0 : List callback_call)
    (hL : L < SIZE_MOD) (hbuf : buf + L ≤ SIZE_MOD) (ds : List USB_BD_t) :
    ∀ (total : Nat) (m mk : Machine), rx_inv buf L cb ctx M calls0 total m →
      rx_in_flight ds m = some mk →
      ∃ as : List bd_handoff, mk.armed = m.armed ++ as ∧
        ∀ a ∈ as, buf ≤ a.desc.addr ∧ a.desc.addr + a.desc.bc ≤ buf + L ∧
          (0 < L → a.desc.addr < buf + L) := by
  induction ds with
  | nil =>
    intro total m mk _ h
    simp only [rx_in_flight, Option.some.injEq] at h
    subst h
    exact ⟨[], by simp, by simp⟩
  | cons d rest ih =>
    intro total m mk hinv h
    simp only [rx_in_flight] at h
    split_ifs at h with h1 h2
    obtain ⟨s2, a1, s3, s4⟩ := usb_rx_next_more_inside buf L cb ctx M calls0 total m d hL hbuf
      hinv h1 (by rw [h2]; decide)
    obtain ⟨as, has, hin⟩ := ih (total + d.bc) _ mk s2 h
    refine ⟨a1 :: as, ?_, ?_⟩
    · rw [has, s3, List.append_assoc]
      rfl
    · intro a ha
      rcases List.mem_cons.mp ha with e | e
      · subst e; exact s4
      · exact hin a e

/-- C21.  RX accounting invariant.  In an RX transfer started by `usb_rx(buf, L, cb, ctx)`
into a buffer that lies in the 32-bit address space (`buf < 2^32`, `buf + L ≤ 2^32`; `L` a
`size_t`), as long as every completed descriptor reports a byte count no larger than the
chunk length the driver computed when it armed the descriptor (`rx_thislen`; the byte count
the armed descriptor itself carries is `0`, which is no larger, so a completion that
respects that count is covered as well): `pos + transfer_size = L` holds after `usb_rx`,
after the completions `ds` handled so far (where `pos` is the sum of their byte counts) and
after the next call of `usb_rx_next`, whether or not it finishes; that call subtracts
without wrapping; the chunk of `rx_thislen` bytes at offset `pos` ends inside the buffer
before and after the call; every descriptor armed since the start points into
`[buf, buf + L)` (at `buf` when `L = 0`) and the byte count it carries ends inside it; and
any length passed to the completion callback is at most `L`. -/
theorem rx_accounting_invariant (m : Machine) (buf L cb ctx : Nat) (ds : List USB_BD_t)
    (d : USB_BD_t) (mk : Machine)
    (hL : L < SIZE_MOD) (hb : buf < SIZE_MOD) (hbuf : buf + L ≤ SIZE_MOD)
    (hreach : rx_in_flight ds (usb_rx m buf L cb ctx).1 = some mk)
    (hd : d.bc ≤ rx_thislen mk) :
    (usb_rx m buf L cb ctx).1.usb.ep0_state.rx.pos +
      (usb_rx m buf L cb ctx).1.usb.ep0_state.rx.transfer_size = L ∧
    mk.usb.ep0_state.rx.pos = (ds.map USB_BD_t.bc).sum ∧
    mk.usb.ep0_state.rx.pos + mk.usb.ep0_state.rx.transfer_size = L ∧
    (mk.usb.bdt (usb_get_bd 0 USB_EP_RX mk.usb.ep0_state.rx.pingpong)).bc ≤ rx_thislen mk ∧
    mk.usb.ep0_state.rx.pos + rx_thislen mk ≤ L ∧
    d.bc ≤ mk.usb.ep0_state.rx.transfer_size ∧
    (usb_rx_next (rx_complete mk d)).1.usb.ep0_state.rx.transfer_size =
      mk.usb.ep0_state.rx.transfer_size - d.bc ∧
    (usb_rx_next (rx_complete mk d)).1.usb.ep0_state.rx.pos =
      mk.usb.ep0_state.rx.pos + d.bc ∧
    (usb_rx_next (rx_complete mk d)).1.usb.ep0_state.rx.pos +
      (usb_rx_next (rx_complete mk d)).1.usb.ep0_state.rx.transfer_size = L ∧
    (usb_rx_next (rx_complete mk d)).1.usb.ep0_state.rx.pos +
      rx_thislen (usb_rx_next (rx_complete mk d)).1 ≤ L ∧
    (∃ as : List bd_handoff,
      (usb_rx_next (rx_complete mk d)).1.armed = m.armed ++ as ∧
      ∀ a ∈ as, buf ≤ a.desc.addr ∧ a.desc.addr + a.desc.bc ≤ buf + L ∧
        (0 < L → a.desc.addr < buf + L)) ∧
    (∃ cs : List callback_call,
      (usb_rx_next (rx_complete mk d)).1.calls = m.calls ++ cs ∧
      ∀ c ∈ cs, c.len ≤ L) := by
  have h0 := usb_rx_inv m buf L cb ctx
  have hk := rx_in_flight_inv buf L cb ctx m.usb.ep0_state.rx.ep_maxsize m.calls hL ds 0 _ mk
    h0 hreach
  rw [Nat.zero_add] at hk
  obtain ⟨a0, ha0, hin0⟩ := usb_rx_armed_inside m buf L cb ctx hb
  obtain ⟨as, has, hin⟩ := rx_in_flight_armed_inside buf L cb ctx
    m.usb.ep0_state.rx.ep_maxsize m.calls hL hbuf ds 0 _ mk h0 hreach
  obtain ⟨s1, s2, s3⟩ := usb_rx_next_step buf L cb ctx m.usb.ep0_state.rx.ep_maxsize m.calls _
    mk d hL hk hd
  have hk0 := hk
  obtain ⟨k1, k2, k3, k4, k5, k6, k7, k8⟩ := hk
  have hdts : d.bc ≤ mk.usb.ep0_state.rx.transfer_size := Nat.le_trans hd (rx_thislen_le mk)
  obtain ⟨c1, c2⟩ := usb_rx_next_counters (rx_complete mk d)
  have hread : ((rx_complete mk d).usb.bdt
      (usb_get_bd 0 USB_EP_RX (rx_complete mk d).usb.ep0_state.rx.pingpong)).bc = d.bc := by
    simp [rx_complete]
  rw [hread, (rx_complete_rx mk d).1] at c1 c2
  rw [size_sub_of_le hdts (by omega)] at c1
  rw [size_add_of_lt (by omega)] at c2
  have ht1 := rx_thislen_le mk
  have ht2 := rx_thislen_le (usb_rx_next (rx_complete mk d)).1
  refine ⟨?_, k5, by omega, by rw [k8]; exact Nat.zero_le _, by omega, hdts, c1, c2, by omega,
    by omega, ?_, ?_⟩
  · simp [usb_rx, usb_rx_queue_next]
  · by_cases hfin : (usb_rx_next (rx_complete mk d)).2 = 0
    · refine ⟨a0 :: as, ?_, ?_⟩
      · rw [(s2 hfin).1, has, ha0, List.append_assoc]
        rfl
      · intro a ha
        rcases List.mem_cons.mp ha with e | e
        · subst e; exact hin0
        · exact hin a e
    · obtain ⟨-, a1, t3, t4⟩ := usb_rx_next_more_inside buf L cb ctx
        m.usb.ep0_state.rx.ep_maxsize m.calls _ mk d hL hbuf hk0 hd hfin
      refine ⟨a0 :: (as ++ [a1]), ?_, ?_⟩
      · rw [t3, has, ha0]
        simp
      · intro a ha
        rcases List.mem_cons.mp ha with e | e
        · subst e; exact hin0
        · rcases List.mem_append.mp e with e | e
          · exact hin a e
          · rw [List.mem_singleton] at e
            subst e; exact t4
  · by_cases hfin : (usb_rx_next (rx_complete mk d)).2 = 0
    · refine ⟨_, (s2 hfin).2, ?_⟩
      intro c hc
      split_ifs at hc with hcb
      · rw [List.mem_singleton] at hc
        subst hc
        simp only
        omega
      · simp at hc
    · obtain ⟨-, t2, -, -⟩ := s3 hfin
      exact ⟨[], by rw [t2.2.2.2.2.2.2.1]; simp, by simp⟩

/-- Instance of C21: a 20-byte receive with maximum packet size 8, after one full packet,
at the completion of the second. -/
theorem rx_accounting_invariant_witness :
    (usb_rx_next (rx_complete
        (usb_rx_next (rx_complete (usb_rx (machine_zero 8) 500 20 7 9).1 ⟨524288, 0⟩)).1
        ⟨524288, 0⟩)).1.usb.ep0_state.rx.pos +
      (usb_rx_next (rx_complete
        (usb_rx_next (rx_complete (usb_rx (machine_zero 8) 500 20 7 9).1 ⟨524288, 0⟩)).1
        ⟨524288, 0⟩)).1.usb.ep0_state.rx.transfer_size = 20 :=
  (rx_accounting_invariant (machine_zero 8) 500 20 7 9 [⟨524288, 0⟩] ⟨524288, 0⟩
    (usb_rx_next (rx_complete (usb_rx (machine_zero 8) 500 20 7 9).1 ⟨524288, 0⟩)).1
    (by decide) (by decide) (by decide) rfl (by decide)).2.2.2.2.2.2.2.2.1

end Mchck
